import Mathlib

/-!
Verification of the core ROBDD binary-operation engine of this repository
(the `bdd_u16` module and the `_impl_bdd` caches), shallowly embedded in Lean.
Machine integers (u16/u32/u64) are modelled as `Nat` with explicit `% 2^w`
wherever the Rust code can wrap; Rust panics and out-of-bounds indexing are
modelled by `Option`/`Except` results.
-/

namespace BddU16

/-! ## Pointer codec (src/bdd_u16/_impl_node_pointer.rs)

A `NodePointer` is a 16-bit word. The terminals are `0` and `0x8000`.
Non-terminal pointers use the variable-length encoding: the trailing-zero
count encodes the rank of the 4-variable block, the next bit selects the
low/high half of the block space, the following two bits are the variable
id inside the block, the remaining high bits are the node index. -/

abbrev NodePointer := Nat

/-- `u16::trailing_zeros`, computed with 16 steps of fuel (so that
`trailingZeros 0 = 16`, as for `u16`). -/
def tzFuel : Nat → Nat → Nat
  | 0, _ => 0
  | f + 1, n => if n % 2 == 1 then 0 else tzFuel f (n / 2) + 1

def NodePointer.trailingZeros (p : Nat) : Nat := tzFuel 16 p

def NodePointer.zero : Nat := 0

def NodePointer.one : Nat := 32768

def NodePointer.terminal (value : Bool) : Nat :=
  match value with
  | true => NodePointer.one
  | false => NodePointer.zero

/-- `self.0 & 0b0111_1111_1111_1111 == 0`. -/
def NodePointer.is_terminal (p : Nat) : Bool := p % 32768 == 0

def NodePointer.as_bool (p : Nat) : Option Bool :=
  if NodePointer.is_terminal p then some (p != 0) else none

def NodePointer.is_one (p : Nat) : Bool := p == 32768

def NodePointer.is_zero (p : Nat) : Bool := p == 0

def NodePointer.flip_if_terminal (p : Nat) : Nat :=
  if NodePointer.is_one p then NodePointer.zero
  else if NodePointer.is_zero p then NodePointer.one
  else p

def NodePointer.is_pointer (p : Nat) : Bool :=
  NodePointer.is_terminal p || NodePointer.trailingZeros p ≤ 8

def NodePointer.is_non_trivial (p : Nat) : Bool :=
  NodePointer.is_pointer p && !NodePointer.is_terminal p

/-- `NodePointer::new(variable, node_index)`. Returns `none` where the Rust
code panics (index not representable as `u16`, or not addressable for the
variable's block rank). `u16` shifts wrap, hence the `% 65536`. The wrapping
`(7 - block_id) & 0b0111` for low blocks is rendered with truncated `Nat`
subtraction; the two differ only for `block_id > 7`, which for a low block
means a variable id of 64 or more (outside the supported universe, where the
Rust debug build panics on the underflow). -/
def NodePointer.new (v : Nat) (node_index : Nat) : Option Nat :=
  let idInBlock := v % 4
  let blockId := v / 4
  let isLowBlock := blockId / 8 % 2 == 0
  let blockRank := if isLowBlock then (7 - blockId) % 8 else blockId % 8
  if node_index ≥ 65536 then none
  else
    let totalShift := blockRank + 4
    if node_index * 2 ^ totalShift % 65536 / 2 ^ totalShift != node_index then none
    else
      let highFlag := if isLowBlock then 0 else 1
      let p1 := node_index * 8 % 65536 + idInBlock * 2 + highFlag
      let p2 := (p1 * 2 % 65536 + 1) * 2 ^ blockRank % 65536
      some p2

/-- `NodePointer::variable_id`; meaningful only for non-trivial pointers
(the Rust code `debug_assert!(self.is_non_trivial())`s this). -/
def NodePointer.variable_id (p : Nat) : Nat :=
  let blockRank := NodePointer.trailingZeros p
  let sansRank := p / 2 ^ (blockRank + 1)
  let isLowBlock := sansRank % 2 == 0
  let idInBlock := sansRank / 2 % 4
  let blockId := if isLowBlock then 7 - blockRank else 8 + blockRank
  4 * blockId + idInBlock

/-- `NodePointer::node_index`; meaningful only for non-trivial pointers. -/
def NodePointer.node_index (p : Nat) : Nat :=
  p / 2 ^ (NodePointer.trailingZeros p + 4)

/-- The rank of a variable's block, as computed inside `NodePointer::new`.
An index is representable for variable `v` exactly when it fits in
`12 - blockRankOf v` bits. -/
def blockRankOf (v : Nat) : Nat :=
  if v / 4 / 8 % 2 == 0 then (7 - v / 4) % 8 else v / 4 % 8

/-! ## Nodes and the Bdd container (src/bdd_u16/mod.rs, _impl_bdd.rs) -/

/-- A `Bdd` node: a `(low, high)` pair of pointers; the variable is carried
by pointers to the node, not by the node itself. -/
structure Node where
  low : Nat
  high : Nat
deriving DecidableEq, Repr

def Node.flip (n : Node) : Node := ⟨n.high, n.low⟩

/-- `Bdd(NodePointer, Vec<Vec<Node>>)`: a root pointer plus one node vector
per variable. -/
structure Bdd where
  root : Nat
  storage : List (List Node)
deriving DecidableEq, Repr

def Bdd.mk_false : Bdd := ⟨NodePointer.zero, []⟩

def Bdd.mk_true : Bdd := ⟨NodePointer.one, []⟩

def Bdd.mk_const (value : Bool) : Bdd := ⟨NodePointer.terminal value, []⟩

def Bdd.is_true (b : Bdd) : Bool := NodePointer.is_one b.root

def Bdd.is_false (b : Bdd) : Bool := NodePointer.is_zero b.root

/-- `mk_blank`: a constant root together with 64 empty per-variable vectors. -/
def Bdd.mk_blank (is_true : Bool) : Bdd :=
  ⟨NodePointer.terminal is_true, List.replicate 64 []⟩

/-- `push_node`: append a node to variable `v`'s vector and return its
pointer. `none` models the panics (vector index out of bounds, or pointer
not representable). In the Rust code the vector push happens before the
pointer is created, but a panic in `NodePointer::new` kills the process, so
the partial mutation is unobservable. -/
def Bdd.push_node (b : Bdd) (v : Nat) (node : Node) : Option (Nat × Bdd) :=
  match b.storage[v]? with
  | none => none
  | some vec =>
    (NodePointer.new v vec.length).map fun p =>
      (p, ⟨b.root, b.storage.set v (vec ++ [node])⟩)

def Bdd.mk_var (id : Nat) (value : Bool) : Option Bdd :=
  let bdd := Bdd.mk_blank false
  let node : Node :=
    if value then ⟨NodePointer.zero, NodePointer.one⟩
    else ⟨NodePointer.one, NodePointer.zero⟩
  (Bdd.push_node bdd id node).map fun pr => ⟨pr.1, pr.2.storage⟩

/-- `Bdd::node`: look up the node of variable `v` at index `i`; `none`
models the out-of-bounds panic. -/
def Bdd.node (b : Bdd) (v : Nat) (i : Nat) : Option Node :=
  match b.storage[v]? with
  | none => none
  | some vec => vec[i]?

def Bdd.node_count (b : Bdd) : Nat :=
  (b.storage.map List.length).sum + 2

/-- `Bdd::not`: flip every terminal pointer in storage, keeping the shape. -/
def Bdd.not (b : Bdd) : Bdd :=
  if Bdd.is_true b then Bdd.mk_false
  else if Bdd.is_false b then Bdd.mk_true
  else
    ⟨b.root,
      b.storage.map fun vec =>
        vec.map fun n => ⟨NodePointer.flip_if_terminal n.low, NodePointer.flip_if_terminal n.high⟩⟩

/-! ## Memoization tables (src/bdd_u16/_impl_node_storage.rs, _impl_task_storage.rs)

`NodeStorage` (the uniqueness table used by `apply`) and `TaskStorage` (the
operation cache) are hash maps; we model them extensionally as functions to
`Option` — exactly the get/insert semantics of `HashMap` (the `stats`
counters have no observable effect and are omitted). -/

/-- `TaskStorage`: map from a task `(left, right)` to its result pointer. -/
def TaskMap := Nat × Nat → Option Nat

/-- `NodeStorage`: map from `(variable, node)` to the canonical pointer. -/
def NodeMap := Nat × Node → Option Nat

def TaskMap.empty : TaskMap := fun _ => none

def NodeMap.empty : NodeMap := fun _ => none

/-- `TaskStorage::resolve`. -/
def TaskMap.resolve (m : TaskMap) (left right : Nat) : Option Nat := m (left, right)

/-- `TaskStorage::save`. -/
def TaskMap.save (m : TaskMap) (left right result : Nat) : TaskMap :=
  fun k => if k = (left, right) then some result else m k

/-- `NodeStorage::find`. -/
def NodeMap.find (m : NodeMap) (v : Nat) (node : Node) : Option Nat := m (v, node)

/-- `NodeStorage::insert`. -/
def NodeMap.insert (m : NodeMap) (v : Nat) (node : Node) (pointer : Nat) : NodeMap :=
  fun k => if k = (v, node) then some pointer else m k

/-! ## Terminal lookup tables

Modelled from the spec: the `op_function` module (the per-connective tables
`∧, ∨, ⊕, →, ↔, ∧¬` of §4.5) is code of this repository that is not under
`src/`; the definitions below follow the spec's tables literally
(`·` entries are `none`). -/

def op_and : Option Bool → Option Bool → Option Bool
  | some false, _ => some false
  | _, some false => some false
  | some true, some true => some true
  | _, _ => none

def op_or : Option Bool → Option Bool → Option Bool
  | some true, _ => some true
  | _, some true => some true
  | some false, some false => some false
  | _, _ => none

def op_xor : Option Bool → Option Bool → Option Bool
  | some a, some b => some (xor a b)
  | _, _ => none

def op_imp : Option Bool → Option Bool → Option Bool
  | some false, _ => some true
  | _, some true => some true
  | some true, some false => some false
  | _, _ => none

def op_iff : Option Bool → Option Bool → Option Bool
  | some a, some b => some (a == b)
  | _, _ => none

def op_and_not : Option Bool → Option Bool → Option Bool
  | some false, _ => some false
  | _, some true => some false
  | some true, some false => some true
  | _, _ => none

/-! ## The apply engine (src/bdd_u16/_impl_bdd_apply.rs)

The `while let Some(last) = task_stack.last()` loop is modelled with a fuel
parameter; `.error .fuel` means the fuel ran out, `.error .panic` models any
of the `panic!`s (lookup-table incompleteness, out-of-bounds node access,
pointer-codec overflow). The head of the `stack` list is the top of the
Rust `Vec`. -/

inductive ApplyError where
  | panic
  | fuel
deriving DecidableEq, Repr

/-- First-some choice, as `Option::or_else` on the two resolution attempts. -/
def orOpt (a b : Option Nat) : Option Nat :=
  match a with
  | some x => some x
  | none => b

def applyLoop (left right : Bdd) (lookup_table : Option Bool → Option Bool → Option Bool) :
    Nat → List (Nat × Nat) → TaskMap → NodeMap → Bdd →
    Except ApplyError (TaskMap × Bdd)
  | 0, _, _, _, _ => .error .fuel
  | _ + 1, [], tasks, _, output => .ok (tasks, output)
  | fuel + 1, (l, r) :: rest, tasks, nodes, output =>
    match TaskMap.resolve tasks l r with
    | some _ => applyLoop left right lookup_table fuel rest tasks nodes output
    | none =>
      let lVar := if NodePointer.is_terminal l then none else some (NodePointer.variable_id l)
      let rVar := if NodePointer.is_terminal r then none else some (NodePointer.variable_id r)
      match lVar, rVar with
      | none, none => .error .panic
      | _, _ =>
        let conditionVar :=
          match lVar, rVar with
          | some x, some y => min x y
          | some v, none => v
          | none, some v => v
          | none, none => 0
        let lChildren : Option (Nat × Nat) :=
          if some conditionVar == lVar then
            (Bdd.node left conditionVar (NodePointer.node_index l)).map fun n => (n.low, n.high)
          else some (l, l)
        let rChildren : Option (Nat × Nat) :=
          if some conditionVar == rVar then
            (Bdd.node right conditionVar (NodePointer.node_index r)).map fun n => (n.low, n.high)
          else some (r, r)
        match lChildren, rChildren with
        | none, _ => .error .panic
        | _, none => .error .panic
        | some (lLow, lHigh), some (rLow, rHigh) =>
          let resultLow :=
            orOpt ((lookup_table (NodePointer.as_bool lLow) (NodePointer.as_bool rLow)).map
              NodePointer.terminal) (TaskMap.resolve tasks lLow rLow)
          let resultHigh :=
            orOpt ((lookup_table (NodePointer.as_bool lHigh) (NodePointer.as_bool rHigh)).map
              NodePointer.terminal) (TaskMap.resolve tasks lHigh rHigh)
          match resultLow, resultHigh with
          | some a, some b =>
            if a == b then
              applyLoop left right lookup_table fuel rest
                (TaskMap.save tasks l r a) nodes output
            else
              match NodeMap.find nodes conditionVar ⟨a, b⟩ with
              | some existing =>
                applyLoop left right lookup_table fuel rest
                  (TaskMap.save tasks l r existing) nodes output
              | none =>
                match Bdd.push_node output conditionVar ⟨a, b⟩ with
                | none => .error .panic
                | some (newPointer, output2) =>
                  applyLoop left right lookup_table fuel rest
                    (TaskMap.save tasks l r newPointer)
                    (NodeMap.insert nodes conditionVar ⟨a, b⟩ newPointer) output2
          | _, _ =>
            let s1 := if resultLow = none then (lLow, rLow) :: (l, r) :: rest else (l, r) :: rest
            let s2 := if resultHigh = none then (lHigh, rHigh) :: s1 else s1
            applyLoop left right lookup_table fuel s2 tasks nodes output

/-- `apply(left, right, lookup_table)`. -/
def apply (left right : Bdd) (lookup_table : Option Bool → Option Bool → Option Bool)
    (fuel : Nat) : Except ApplyError Bdd :=
  let leftConst := NodePointer.as_bool left.root
  let rightConst := NodePointer.as_bool right.root
  match lookup_table leftConst rightConst with
  | some result => .ok (Bdd.mk_const result)
  | none =>
    if leftConst.isSome && rightConst.isSome then .error .panic
    else
      match applyLoop left right lookup_table fuel [(left.root, right.root)]
          TaskMap.empty NodeMap.empty (Bdd.mk_blank false) with
      | .error e => .error e
      | .ok (tasks, output) =>
        match TaskMap.resolve tasks left.root right.root with
        | none => .error .panic
        | some result =>
          match NodePointer.as_bool result with
          | some c => .ok (Bdd.mk_const c)
          | none => .ok ⟨result, output.storage⟩

def Bdd.and (a b : Bdd) (fuel : Nat) : Except ApplyError Bdd := apply a b op_and fuel

def Bdd.or (a b : Bdd) (fuel : Nat) : Except ApplyError Bdd := apply a b op_or fuel

def Bdd.imp (a b : Bdd) (fuel : Nat) : Except ApplyError Bdd := apply a b op_imp fuel

def Bdd.iff (a b : Bdd) (fuel : Nat) : Except ApplyError Bdd := apply a b op_iff fuel

def Bdd.xor (a b : Bdd) (fuel : Nat) : Except ApplyError Bdd := apply a b op_xor fuel

def Bdd.and_not (a b : Bdd) (fuel : Nat) : Except ApplyError Bdd := apply a b op_and_not fuel

/-! ## The experimental uniqueness table (src/bdd_u16/mod.rs, `VarNodeStorage`)

One `VarNodeStorage` holds the uniqueness entries of a single output
variable, split by the shape of the `(low, high)` key: both terminal
(`constant`), one terminal (`terminal`, indexed by the other child's node
index), both children at the same variable (`equal_vars`, indexed by the
interleaving of the two node indices), and the rest (`other`, a hash map).

`NodePointer::none_pointer` and `NodePointer::as_pointer` are used by this
structure but are not defined under `src/`. Modelled from the spec: the
pointer codec leaves a small reserved range of values that are not valid
pointers and "can be used ... by data structures that need to store pointers
to represent special values (like a missing value)"; `none_pointer` is such
a reserved value (any word whose trailing-zero count exceeds 8; we use
`0b10_0000_0000`), and `as_pointer` refines a word to `some` valid pointer
or `none`. -/

/-- Modelled from the spec: a reserved non-pointer word used as the missing
value; `trailingZeros 512 = 9`, so `is_pointer` rejects it. -/
def NodePointer.none_pointer : Nat := 512

/-- Modelled from the spec: the checked refinement of a word to a valid
pointer (`some self` when `is_pointer`, otherwise `none`). -/
def NodePointer.as_pointer (p : Nat) : Option Nat :=
  if NodePointer.is_pointer p then some p else none

/-- The `interleave` bit-mixer (u64 arithmetic; the multiplications wrap, as
in a release build). -/
def interleave (b1 b2 : Nat) : Nat :=
  ((((b2 * 0x0101010101010101 % 2 ^ 64) &&& 0x8040201008040201)
      * 0x0102040810204081 % 2 ^ 64 >>> 49) &&& 0x5555) |||
  ((((b1 * 0x0101010101010101 % 2 ^ 64) &&& 0x8040201008040201)
      * 0x0102040810204081 % 2 ^ 64 >>> 48) &&& 0xAAAA)

/-- `vec_insert`: grow the vector with `none_pointer` padding up to `index`,
then write `pointer` at `index`. -/
def vec_insert (vector : List Nat) (index : Nat) (pointer : Nat) : List Nat :=
  let padded :=
    if index ≥ vector.length then
      vector ++ List.replicate (index - vector.length + 1) NodePointer.none_pointer
    else vector
  padded.set index pointer

structure VarNodeStorage where
  constant : List Nat
  terminal : List (List Nat)
  equal_vars : List (List Nat)
  other : TaskMap

/-- `VarNodeStorage::new`. The `constant` field is the 4-element array of
`none_pointer`s, `terminal` the 4 empty vectors, `equal_vars` one empty
vector per variable, `other` an empty hash map. -/
def VarNodeStorage.new (vars : Nat) : VarNodeStorage :=
  ⟨List.replicate 4 NodePointer.none_pointer, List.replicate 4 [],
    List.replicate vars [], TaskMap.empty⟩

/-- `VarNodeStorage::find`. Array indexing into the length-4 `constant` and
`terminal` fields is rendered with `getD` (it is always in bounds by
construction); out-of-range `equal_vars` indexing is a panic in Rust and is
likewise rendered with `getD`, which no theorem below exercises. -/
def VarNodeStorage.find (s : VarNodeStorage) (low high : Nat) : Option Nat :=
  let value : Option Nat :=
    match NodePointer.as_bool low, NodePointer.as_bool high with
    | some false, some false => some (s.constant.getD 0 0)
    | some false, some true => some (s.constant.getD 1 0)
    | some true, some false => some (s.constant.getD 2 0)
    | some true, some true => some (s.constant.getD 3 0)
    | some false, _ => (s.terminal.getD 0 [])[NodePointer.node_index high]?
    | some true, _ => (s.terminal.getD 1 [])[NodePointer.node_index high]?
    | _, some false => (s.terminal.getD 2 [])[NodePointer.node_index low]?
    | _, some true => (s.terminal.getD 3 [])[NodePointer.node_index low]?
    | none, none =>
      if NodePointer.variable_id low != NodePointer.variable_id high then
        s.other (low, high)
      else
        let vector := s.equal_vars.getD (NodePointer.variable_id low) []
        let index := interleave (NodePointer.node_index low) (NodePointer.node_index high)
        vector[index]?
  value.bind NodePointer.as_pointer

/-- `VarNodeStorage::insert`. Note the `(None, None)` branch with two
distinct child variables: the Rust code evaluates
`self.other.get(&(low, high)).cloned();` — a lookup whose result is
discarded — and stores nothing. -/
def VarNodeStorage.insert (s : VarNodeStorage) (low high result : Nat) : VarNodeStorage :=
  match NodePointer.as_bool low, NodePointer.as_bool high with
  | some false, some false => { s with constant := s.constant.set 0 result }
  | some false, some true => { s with constant := s.constant.set 1 result }
  | some true, some false => { s with constant := s.constant.set 2 result }
  | some true, some true => { s with constant := s.constant.set 3 result }
  | some false, _ =>
    { s with terminal :=
        s.terminal.set 0 (vec_insert (s.terminal.getD 0 []) (NodePointer.node_index high) result) }
  | some true, _ =>
    { s with terminal :=
        s.terminal.set 1 (vec_insert (s.terminal.getD 1 []) (NodePointer.node_index high) result) }
  | _, some false =>
    { s with terminal :=
        s.terminal.set 2 (vec_insert (s.terminal.getD 2 []) (NodePointer.node_index low) result) }
  | _, some true =>
    { s with terminal :=
        s.terminal.set 3 (vec_insert (s.terminal.getD 3 []) (NodePointer.node_index low) result) }
  | none, none =>
    if NodePointer.variable_id low != NodePointer.variable_id high then
      s
    else
      { s with equal_vars :=
          (s.equal_vars.set (NodePointer.variable_id low)
            (vec_insert (s.equal_vars.getD (NodePointer.variable_id low) [])
              (interleave (NodePointer.node_index low) (NodePointer.node_index high)) result)) }

end BddU16

/-! ## The lossy direct-mapped operation cache (src/_impl_bdd/cache2.rs)

`Cache2` works on the 32-bit `BddPointer`s of the main `Bdd` representation;
a pointer is its raw `u32` value here. The backing vector holds `capacity + 1`
words initialized to `u32::MAX`; a lookup compares the stored word against
the packed key. -/

namespace Cache2Model

def U32_MAX : Nat := 4294967295

/-- `pack(l, r) = (l << 16) + r` in `u32` (the shift wraps). -/
def pack (l r : Nat) : Nat := (l * 65536 % 4294967296 + r) % 4294967296

def SEED32 : Nat := 0x9e3779b9

/-- `hash(value) = value.wrapping_mul(SEED32)`. -/
def hash (value : Nat) : Nat := value * SEED32 % 4294967296

structure Cache2 where
  capacity : Nat
  items : List Nat

/-- `Cache2::new` (requires a nonzero capacity). -/
def Cache2.new (capacity : Nat) : Cache2 :=
  ⟨capacity, List.replicate (capacity + 1) U32_MAX⟩

/-- `Cache2::contains`: compare the slot's word with the packed key. -/
def Cache2.contains (c : Cache2) (l r : Nat) : Bool :=
  let packed := pack l r
  let index := hash packed % c.capacity
  c.items[index]? == some packed

/-- `Cache2::insert`: unconditionally overwrite the slot. -/
def Cache2.insert (c : Cache2) (l r : Nat) : Cache2 :=
  let packed := pack l r
  let index := hash packed % c.capacity
  ⟨c.capacity, c.items.set index packed⟩

end Cache2Model

/-! ## Verification-side definitions -/

namespace BddU16

/-- Reducedness of a `Bdd` (spec, section 3): no node has equal children and
no per-variable vector contains two identical `(low, high)` pairs. -/
def Reduced (b : Bdd) : Prop :=
  ∀ vec ∈ b.storage, vec.Nodup ∧ ∀ nd ∈ vec, nd.low ≠ nd.high

instance (b : Bdd) : Decidable (Reduced b) :=
  inferInstanceAs (Decidable (∀ vec ∈ b.storage, vec.Nodup ∧ ∀ nd ∈ vec, nd.low ≠ nd.high))

/-- Canonical re-layout of a `Bdd` (spec, section 3, "canonical layout"):
the DFS traversal (high child explored first, node emitted once both
children are resolved) that the apply engine performs on the product graph,
specialized to a single input. `relayout a = .ok a` states that `a`'s
storage is exactly in the canonical DFS post-order that the engine emits. -/
def relayoutLoop (a : Bdd) :
    Nat → List Nat → (Nat → Option Nat) → NodeMap → Bdd →
    Except ApplyError ((Nat → Option Nat) × Bdd)
  | 0, _, _, _, _ => .error .fuel
  | _ + 1, [], tasks, _, output => .ok (tasks, output)
  | fuel + 1, l :: rest, tasks, nodes, output =>
    match tasks l with
    | some _ => relayoutLoop a fuel rest tasks nodes output
    | none =>
      if NodePointer.is_terminal l then .error .panic
      else
        let cv := NodePointer.variable_id l
        match Bdd.node a cv (NodePointer.node_index l) with
        | none => .error .panic
        | some n =>
          let resultLow :=
            if NodePointer.is_terminal n.low then some (NodePointer.terminal (n.low != 0))
            else tasks n.low
          let resultHigh :=
            if NodePointer.is_terminal n.high then some (NodePointer.terminal (n.high != 0))
            else tasks n.high
          match resultLow, resultHigh with
          | some x, some y =>
            if x == y then
              relayoutLoop a fuel rest (fun k => if k = l then some x else tasks k) nodes output
            else
              match NodeMap.find nodes cv ⟨x, y⟩ with
              | some existing =>
                relayoutLoop a fuel rest (fun k => if k = l then some existing else tasks k)
                  nodes output
              | none =>
                match Bdd.push_node output cv ⟨x, y⟩ with
                | none => .error .panic
                | some (newPointer, output2) =>
                  relayoutLoop a fuel rest (fun k => if k = l then some newPointer else tasks k)
                    (NodeMap.insert nodes cv ⟨x, y⟩ newPointer) output2
          | _, _ =>
            let s1 := if resultLow = none then n.low :: l :: rest else l :: rest
            let s2 := if resultHigh = none then n.high :: s1 else s1
            relayoutLoop a fuel s2 tasks nodes output

/-- Canonical layout check; see `relayoutLoop`. -/
def relayout (a : Bdd) (fuel : Nat) : Except ApplyError Bdd :=
  match NodePointer.as_bool a.root with
  | some c => .ok (Bdd.mk_const c)
  | none =>
    match relayoutLoop a fuel [a.root] (fun _ => none) NodeMap.empty (Bdd.mk_blank false) with
    | .error e => .error e
    | .ok (tasks, output) =>
      match tasks a.root with
      | none => .error .panic
      | some result =>
        match NodePointer.as_bool result with
        | some c => .ok (Bdd.mk_const c)
        | none => .ok ⟨result, output.storage⟩

/-- Shorthand for the single-variable literal `Bdd` (total version of
`mk_var`, for concrete witnesses where the id is in range). -/
def litVar (v : Nat) (value : Bool) : Bdd :=
  (Bdd.mk_var v value).getD Bdd.mk_false

end BddU16

deriving instance DecidableEq for Except

/-! ## Theorems -/

namespace BddU16

/-- Helper: flipping terminal pointers is an involution. -/
theorem flip_if_terminal_involutive (p : Nat) :
    NodePointer.flip_if_terminal (NodePointer.flip_if_terminal p) = p := by
  unfold NodePointer.flip_if_terminal NodePointer.is_one NodePointer.is_zero
  by_cases h1 : p = 32768
  · simp [h1, NodePointer.zero, NodePointer.one]
  · by_cases h2 : p = 0
    · simp [h2, NodePointer.zero, NodePointer.one]
    · simp [h1, h2]

/-- C1: refuted by the code (code bug). `VarNodeStorage::insert` on the
uniqueness table, in the branch where both children are non-terminal and
carry different variable ids, evaluates `self.other.get(&(low, high))` and
discards the result instead of inserting, so a subsequent `find` on the same
key returns `None` rather than `Some(result)`. Concretely: `low` is the
pointer of variable 1, index 0 (word 640) and `high` the pointer of
variable 2, index 0 (word 1152); after `insert(low, high, 128)` on a fresh
table, `find(low, high)` returns `None`. -/
theorem varNodeStorage_insert_write_dropped :
    NodePointer.new 1 0 = some 640 ∧ NodePointer.new 2 0 = some 1152 ∧
    NodePointer.is_terminal 640 = false ∧ NodePointer.is_terminal 1152 = false ∧
    NodePointer.variable_id 640 = 1 ∧ NodePointer.variable_id 1152 = 2 ∧
    VarNodeStorage.find
      (VarNodeStorage.insert (VarNodeStorage.new 64) 640 1152 128) 640 1152 = none := by
  decide

end BddU16

/-- C2: refuted by the code (code bug). The lossy cache admits false
positives on 32-bit pointers: `pack` maps the distinct pairs `(1, 0)` and
`(0, 65536)` to the same 32-bit key, so after `insert(1, 0)` a lookup of
`(0, 65536)` lands on the same slot and compares equal; moreover the empty
slot marker `u32::MAX` is itself the packed form of the representable pair
`(65535, 65535)`, so a fresh cache reports that pair as present with no
insertion at all. -/
theorem cache2_contains_false_positive :
    Cache2Model.pack 1 0 = Cache2Model.pack 0 65536 ∧
    ((1 : Nat), (0 : Nat)) ≠ ((0 : Nat), (65536 : Nat)) ∧
    (Cache2Model.Cache2.insert (Cache2Model.Cache2.new 4) 1 0).contains 0 65536 = true ∧
    (Cache2Model.Cache2.new 4).contains 65535 65535 = true := by
  decide

namespace BddU16

/-- C9: table incompleteness is fatal. For constant (terminal-rooted)
inputs, when the terminal lookup table returns `None` on their values,
`apply` panics before doing any work; when the table returns `Some(b)`, it
returns the constant `Bdd` for `b`. -/
theorem apply_terminal_table_fatal (L R : Bdd)
    (t : Option Bool → Option Bool → Option Bool) (fuel : Nat)
    (hL : NodePointer.is_terminal L.root = true)
    (hR : NodePointer.is_terminal R.root = true) :
    (t (NodePointer.as_bool L.root) (NodePointer.as_bool R.root) = none →
      apply L R t fuel = .error .panic) ∧
    (∀ b, t (NodePointer.as_bool L.root) (NodePointer.as_bool R.root) = some b →
      apply L R t fuel = .ok (Bdd.mk_const b)) := by
  constructor
  · intro hnone
    simp only [apply]
    rw [hnone]
    simp [NodePointer.as_bool, hL, hR]
  · intro b hsome
    simp only [apply, hsome]

/-- Witness for C9 at the constant inputs `⊤, ⊤`: the always-`None` table
makes `apply` panic, while the `∧` table resolves them to `⊤`. -/
theorem apply_terminal_table_fatal_witness :
    apply Bdd.mk_true Bdd.mk_true (fun _ _ => none) 5 = .error .panic ∧
    apply Bdd.mk_true Bdd.mk_true op_and 5 = .ok (Bdd.mk_const true) := by
  have h1 := apply_terminal_table_fatal Bdd.mk_true Bdd.mk_true
    (fun _ _ => none) 5 (by decide) (by decide)
  have h2 := apply_terminal_table_fatal Bdd.mk_true Bdd.mk_true op_and 5 (by decide) (by decide)
  exact ⟨h1.1 rfl, h2.2 true rfl⟩

/-- C10: the 64-variable limit. Storage is always allocated with exactly 64
per-variable vectors, so `mk_var` with a variable id of 64 or more hits
out-of-bounds indexing (a panic, modelled as `none`), while ids 0 through 63
always succeed, and the indexing of `mk_blank` storage performed by
`push_node` is in bounds for them. -/
theorem variable_limit_64 :
    (∀ v value, 64 ≤ v → Bdd.mk_var v value = none) ∧
    (∀ v value, v < 64 → (Bdd.mk_var v value).isSome = true) ∧
    (∀ t v, v < 64 → ((Bdd.mk_blank t).storage[v]?).isSome = true) := by
  refine ⟨fun v value h => ?_, fun v value h => ?_, fun t v h => ?_⟩
  · simp only [Bdd.mk_var, Bdd.push_node, Bdd.mk_blank]
    rw [List.getElem?_replicate]
    simp [Nat.not_lt.mpr h]
  · simp only [Bdd.mk_var, Bdd.push_node, Bdd.mk_blank]
    rw [List.getElem?_replicate]
    simp only [h, if_pos]
    simp [NodePointer.new]
  · simp only [Bdd.mk_blank]
    rw [List.getElem?_replicate]
    simp [h]

/-- Witness for C10: variable id 64 panics, id 0 succeeds. -/
theorem variable_limit_64_witness :
    Bdd.mk_var 64 true = none ∧ (Bdd.mk_var 0 true).isSome = true ∧
    ((Bdd.mk_blank false).storage[63]?).isSome = true :=
  ⟨variable_limit_64.1 64 true (by decide), variable_limit_64.2.1 0 true (by decide),
    variable_limit_64.2.2 false 63 (by decide)⟩

/-- C8: double negation is the structural identity. The hypothesis states
the constant-storage invariant of the public API (a `Bdd` with a terminal
root carries no node vectors, as produced by `mk_true`/`mk_false`/`apply`);
for non-constant roots the statement is unconditional. -/
theorem not_not_identity (b : Bdd)
    (h : NodePointer.is_terminal b.root = true → b.storage = []) :
    (b.not).not = b := by
  cases b with
  | mk root storage =>
    by_cases h1 : root = 32768
    · subst h1
      have hst : storage = [] := h (by simp [NodePointer.is_terminal])
      subst hst
      decide
    · by_cases h2 : root = 0
      · subst h2
        have hst : storage = [] := h (by simp [NodePointer.is_terminal])
        subst hst
        decide
      · have e1 : (root == 32768) = false := by simp [h1]
        have e2 : (root == 0) = false := by simp [h2]
        have gEq : ∀ n : Node,
            (⟨NodePointer.flip_if_terminal (NodePointer.flip_if_terminal n.low),
              NodePointer.flip_if_terminal (NodePointer.flip_if_terminal n.high)⟩ : Node) = n := by
          intro n
          cases n with
          | mk low high => simp [flip_if_terminal_involutive]
        simp only [Bdd.not, Bdd.is_true, Bdd.is_false, NodePointer.is_one, NodePointer.is_zero,
          e1, e2, Bool.false_eq_true, if_false, List.map_map, Bdd.mk.injEq, true_and]
        conv_rhs => rw [← List.map_id storage]
        apply List.map_congr_left
        intro vec _
        simp only [Function.comp, List.map_map, id]
        conv_rhs => rw [← List.map_id vec]
        apply List.map_congr_left
        intro n _
        simp only [Function.comp, id]
        exact gEq n

/-- Witness for C8 at a non-constant literal `Bdd` (the constant-storage
hypothesis holds vacuously there). -/
theorem not_not_identity_witness :
    (NodePointer.is_terminal (litVar 2 true).root = true → (litVar 2 true).storage = []) ∧
    ((litVar 2 true).not).not = litVar 2 true :=
  ⟨by decide, not_not_identity (litVar 2 true) (by decide)⟩

end BddU16

namespace BddU16

/-- Helper: trailing zeros of an odd multiple of `2 ^ r` is `r`, given
enough fuel. -/
theorem tzFuel_mul_pow : ∀ f r m, m % 2 = 1 → r < f → tzFuel f (m * 2 ^ r) = r := by
  intro f
  induction f with
  | zero => intro r m _ h; omega
  | succ f ih =>
    intro r m hm hr
    cases r with
    | zero =>
      simp only [pow_zero, Nat.mul_one, tzFuel]
      have : m % 2 == 1 := by simp [hm]
      simp [this]
    | succ r =>
      have heven : m * 2 ^ (r + 1) % 2 = 0 := by
        rw [pow_succ, ← Nat.mul_assoc]
        simp [Nat.mul_mod_left]
      have hdiv : m * 2 ^ (r + 1) / 2 = m * 2 ^ r := by
        rw [pow_succ, ← Nat.mul_assoc]
        exact Nat.mul_div_cancel _ (by norm_num)
      simp only [tzFuel, heven]
      norm_num
      rw [hdiv, ih r m hm (by omega)]

/-- Helper: trailing zeros of an odd multiple of `2 ^ r`, for `r < 16`. -/
theorem trailingZeros_mul_pow (m r : Nat) (hm : m % 2 = 1) (hr : r < 16) :
    NodePointer.trailingZeros (m * 2 ^ r) = r :=
  tzFuel_mul_pow 16 r m hm hr

/-- Helper: arithmetic facts about an encoded pointer
`(16 i + 2 k + 1) * 2 ^ r`. -/
theorem roundtrip_core (r k i : Nat) (hr : r ≤ 7) (hk : k < 8)
    (hi : i < 2 ^ (12 - r)) :
    NodePointer.is_terminal ((16 * i + 2 * k + 1) * 2 ^ r) = false ∧
    NodePointer.trailingZeros ((16 * i + 2 * k + 1) * 2 ^ r) = r ∧
    (16 * i + 2 * k + 1) * 2 ^ r / 2 ^ (r + 1) = 8 * i + k ∧
    (16 * i + 2 * k + 1) * 2 ^ r / 2 ^ (r + 4) = i ∧
    (16 * i + 2 * k + 1) * 2 ^ r < 65536 := by
  have h16 : (16 : Nat) * 2 ^ (12 - r) = 2 ^ (16 - r) := by
    rw [show (16 : Nat) = 2 ^ 4 from rfl, ← pow_add]
    congr 1
    omega
  have hm : 16 * i + 2 * k + 1 < 2 ^ (16 - r) := by omega
  have hpow : (2 : Nat) ^ (16 - r) * 2 ^ r = 65536 := by
    rw [← pow_add, show 16 - r + r = 16 by omega]
    norm_num
  have hlt : (16 * i + 2 * k + 1) * 2 ^ r < 65536 := by
    calc (16 * i + 2 * k + 1) * 2 ^ r < 2 ^ (16 - r) * 2 ^ r :=
          mul_lt_mul_of_pos_right hm (pow_pos (by norm_num) _)
      _ = 65536 := hpow
  have hodd : (16 * i + 2 * k + 1) % 2 = 1 := by omega
  have htz : NodePointer.trailingZeros ((16 * i + 2 * k + 1) * 2 ^ r) = r :=
    trailingZeros_mul_pow _ r hodd (by omega)
  have hterm : NodePointer.is_terminal ((16 * i + 2 * k + 1) * 2 ^ r) = false := by
    simp only [NodePointer.is_terminal, beq_eq_false_iff_ne, ne_eq]
    intro hmod
    have hdvd : 32768 ∣ (16 * i + 2 * k + 1) * 2 ^ r := Nat.dvd_of_mod_eq_zero hmod
    have h215 : (32768 : Nat) = 2 ^ r * 2 ^ (15 - r) := by
      rw [← pow_add, show r + (15 - r) = 15 by omega]
      norm_num
    rw [h215, Nat.mul_comm (16 * i + 2 * k + 1) (2 ^ r)] at hdvd
    have hdvd2 : 2 ^ (15 - r) ∣ 16 * i + 2 * k + 1 :=
      (mul_dvd_mul_iff_left (a := (2 : Nat) ^ r) (by positivity)).mp hdvd
    have h2 : (2 : Nat) ∣ 2 ^ (15 - r) := dvd_pow_self 2 (by omega)
    have : (2 : Nat) ∣ 16 * i + 2 * k + 1 := dvd_trans h2 hdvd2
    omega
  have hdiv1 : (16 * i + 2 * k + 1) * 2 ^ r / 2 ^ (r + 1) = 8 * i + k := by
    rw [pow_succ, ← Nat.div_div_eq_div_mul, Nat.mul_div_cancel _ (pow_pos (by norm_num) r)]
    omega
  have hdiv4 : (16 * i + 2 * k + 1) * 2 ^ r / 2 ^ (r + 4) = i := by
    rw [show (2 : Nat) ^ (r + 4) = 2 ^ r * 16 by rw [pow_add]; norm_num]
    rw [← Nat.div_div_eq_div_mul, Nat.mul_div_cancel _ (pow_pos (by norm_num) r)]
    omega
  exact ⟨hterm, htz, hdiv1, hdiv4, hlt⟩

end BddU16

namespace BddU16

/-- Helper: decoding the variable id of an encoded pointer. -/
theorem variable_id_eval (r k i : Nat) (hr : r ≤ 7) (hk : k < 8) (hi : i < 2 ^ (12 - r)) :
    NodePointer.variable_id ((16 * i + 2 * k + 1) * 2 ^ r) =
      4 * (if k % 2 = 0 then 7 - r else 8 + r) + k / 2 := by
  obtain ⟨hterm, htz, hdiv1, hdiv4, hlt⟩ := roundtrip_core r k i hr hk hi
  simp only [NodePointer.variable_id, htz, hdiv1]
  have h82 : (8 * i + k) % 2 = k % 2 := by omega
  have h824 : (8 * i + k) / 2 % 4 = k / 2 := by omega
  rw [h82, h824]
  by_cases hk2 : k % 2 = 0
  · simp [hk2]
  · have : k % 2 = 1 := by omega
    simp [this]

/-- Helper: decoding the node index of an encoded pointer. -/
theorem node_index_eval (r k i : Nat) (hr : r ≤ 7) (hk : k < 8) (hi : i < 2 ^ (12 - r)) :
    NodePointer.node_index ((16 * i + 2 * k + 1) * 2 ^ r) = i := by
  obtain ⟨hterm, htz, hdiv1, hdiv4, hlt⟩ := roundtrip_core r k i hr hk hi
  simp only [NodePointer.node_index, htz, hdiv4]

/-- Helper: evaluation of `NodePointer::new` for a low-block variable. -/
theorem new_eval_low (v i : Nat) (hv : v < 64) (hlow : v / 4 < 8)
    (hi : i < 2 ^ (12 - blockRankOf v)) :
    NodePointer.new v i = some ((16 * i + 2 * (v % 4 * 2) + 1) * 2 ^ blockRankOf v) := by
  have hbool : v / 4 / 8 % 2 = 0 := by omega
  have hrr : blockRankOf v = 7 - v / 4 := by
    simp [blockRankOf, hbool]
    omega
  have hr7 : blockRankOf v ≤ 7 := by omega
  have hi4096 : i < 4096 := by
    have : (2 : Nat) ^ (12 - blockRankOf v) ≤ 2 ^ 12 := Nat.pow_le_pow_right (by norm_num) (by omega)
    omega
  have hr8 : (7 - v / 4) % 8 = blockRankOf v := by omega
  obtain ⟨hterm, htz, hdiv1, hdiv4, hlt⟩ :=
    roundtrip_core (blockRankOf v) (v % 4 * 2) i hr7 (by omega) hi
  simp only [NodePointer.new, hbool]
  norm_num
  refine ⟨by omega, ?_, ?_⟩
  · rw [hr8]
    have h1 : (2 : Nat) ^ (12 - blockRankOf v) * 2 ^ (blockRankOf v + 4) = 65536 := by
      rw [← pow_add, show 12 - blockRankOf v + (blockRankOf v + 4) = 16 by omega]
      norm_num
    have hsh : i * 2 ^ (blockRankOf v + 4) < 65536 := by
      calc i * 2 ^ (blockRankOf v + 4) < 2 ^ (12 - blockRankOf v) * 2 ^ (blockRankOf v + 4) :=
            mul_lt_mul_of_pos_right hi (pow_pos (by norm_num) _)
        _ = 65536 := h1
    rw [Nat.mod_eq_of_lt hsh, Nat.mul_div_cancel _ (pow_pos (by norm_num) _)]
  · have hA : i * 8 % 65536 = i * 8 := Nat.mod_eq_of_lt (by omega)
    have hB : (i * 8 + v % 4 * 2) * 2 % 65536 = (i * 8 + v % 4 * 2) * 2 :=
      Nat.mod_eq_of_lt (by omega)
    rw [hA, hB, hr8]
    have heq : (i * 8 + v % 4 * 2) * 2 + 1 = 16 * i + 2 * (v % 4 * 2) + 1 := by ring
    rw [heq, Nat.mod_eq_of_lt hlt]

/-- Helper: evaluation of `NodePointer::new` for a high-block variable. -/
theorem new_eval_high (v i : Nat) (hv : v < 64) (hhigh : 8 ≤ v / 4)
    (hi : i < 2 ^ (12 - blockRankOf v)) :
    NodePointer.new v i = some ((16 * i + 2 * (v % 4 * 2 + 1) + 1) * 2 ^ blockRankOf v) := by
  have hbool : v / 4 / 8 % 2 = 1 := by omega
  have hrr : blockRankOf v = v / 4 - 8 := by
    simp [blockRankOf, hbool]
    omega
  have hr7 : blockRankOf v ≤ 7 := by omega
  have hi4096 : i < 4096 := by
    have : (2 : Nat) ^ (12 - blockRankOf v) ≤ 2 ^ 12 := Nat.pow_le_pow_right (by norm_num) (by omega)
    omega
  have hr8 : v / 4 % 8 = blockRankOf v := by omega
  obtain ⟨hterm, htz, hdiv1, hdiv4, hlt⟩ :=
    roundtrip_core (blockRankOf v) (v % 4 * 2 + 1) i hr7 (by omega) hi
  simp only [NodePointer.new, hbool]
  norm_num
  refine ⟨by omega, ?_, ?_⟩
  · rw [hr8]
    have h1 : (2 : Nat) ^ (12 - blockRankOf v) * 2 ^ (blockRankOf v + 4) = 65536 := by
      rw [← pow_add, show 12 - blockRankOf v + (blockRankOf v + 4) = 16 by omega]
      norm_num
    have hsh : i * 2 ^ (blockRankOf v + 4) < 65536 := by
      calc i * 2 ^ (blockRankOf v + 4) < 2 ^ (12 - blockRankOf v) * 2 ^ (blockRankOf v + 4) :=
            mul_lt_mul_of_pos_right hi (pow_pos (by norm_num) _)
        _ = 65536 := h1
    rw [Nat.mod_eq_of_lt hsh, Nat.mul_div_cancel _ (pow_pos (by norm_num) _)]
  · have hA : i * 8 % 65536 = i * 8 := Nat.mod_eq_of_lt (by omega)
    have hB : (i * 8 + v % 4 * 2 + 1) * 2 % 65536 = (i * 8 + v % 4 * 2 + 1) * 2 :=
      Nat.mod_eq_of_lt (by omega)
    rw [hA, hB, hr8]
    have heq : (i * 8 + v % 4 * 2 + 1) * 2 + 1 = 16 * i + 2 * (v % 4 * 2 + 1) + 1 := by ring
    rw [heq, Nat.mod_eq_of_lt hlt]

/-- C4: pointer codec round-trip. For every variable id below 64 and every
node index representable for that variable (it fits in `12 - blockRankOf v`
bits, the check `NodePointer::new` itself performs), `new` succeeds, the
resulting pointer is not a terminal, and `variable_id`/`node_index` recover
the arguments. -/
theorem node_pointer_roundtrip (v i : Nat) (hv : v < 64)
    (hi : i < 2 ^ (12 - blockRankOf v)) :
    ∃ p, NodePointer.new v i = some p ∧ NodePointer.is_terminal p = false ∧
      NodePointer.variable_id p = v ∧ NodePointer.node_index p = i := by
  by_cases hlow : v / 4 < 8
  · have hbool : v / 4 / 8 % 2 = 0 := by omega
    have hrr : blockRankOf v = 7 - v / 4 := by
      simp [blockRankOf, hbool]
      omega
    have hr7 : blockRankOf v ≤ 7 := by omega
    obtain ⟨hterm, htz, hdiv1, hdiv4, hlt⟩ :=
      roundtrip_core (blockRankOf v) (v % 4 * 2) i hr7 (by omega) hi
    refine ⟨(16 * i + 2 * (v % 4 * 2) + 1) * 2 ^ blockRankOf v,
      new_eval_low v i hv hlow hi, hterm, ?_, node_index_eval _ _ _ hr7 (by omega) hi⟩
    rw [variable_id_eval (blockRankOf v) (v % 4 * 2) i hr7 (by omega) hi]
    rw [if_pos (by omega)]
    omega
  · have hbool : v / 4 / 8 % 2 = 1 := by omega
    have hrr : blockRankOf v = v / 4 - 8 := by
      simp [blockRankOf, hbool]
      omega
    have hr7 : blockRankOf v ≤ 7 := by omega
    obtain ⟨hterm, htz, hdiv1, hdiv4, hlt⟩ :=
      roundtrip_core (blockRankOf v) (v % 4 * 2 + 1) i hr7 (by omega) hi
    refine ⟨(16 * i + 2 * (v % 4 * 2 + 1) + 1) * 2 ^ blockRankOf v,
      new_eval_high v i hv (by omega) hi, hterm, ?_, node_index_eval _ _ _ hr7 (by omega) hi⟩
    rw [variable_id_eval (blockRankOf v) (v % 4 * 2 + 1) i hr7 (by omega) hi]
    rw [if_neg (by omega)]
    omega

/-- Witness for C4 at a low-block variable (id 17, index 5) — the bounds
hold and the round-trip equations evaluate. -/
theorem node_pointer_roundtrip_witness :
    17 < 64 ∧ 5 < 2 ^ (12 - blockRankOf 17) ∧
    (∃ p, NodePointer.new 17 5 = some p ∧ NodePointer.is_terminal p = false ∧
      NodePointer.variable_id p = 17 ∧ NodePointer.node_index p = 5) :=
  ⟨by decide, by decide, node_pointer_roundtrip 17 5 (by decide) (by decide)⟩

end BddU16

namespace BddU16

/-- Helper: the uniqueness discipline of `apply` around `push_node`: pushing
a find-missed node with distinct children onto a reduced output keeps it
reduced, and the refreshed uniqueness map still covers all stored nodes. -/
theorem push_node_invariants (output : Bdd) (cv : Nat) (nd : Node) (p : Nat) (output2 : Bdd)
    (nodes : NodeMap)
    (hpush : Bdd.push_node output cv nd = some (p, output2))
    (hA : Reduced output)
    (hB : ∀ v vec nd2, output.storage[v]? = some vec → nd2 ∈ vec → (nodes (v, nd2)).isSome = true)
    (hfind : nodes (cv, nd) = none)
    (hne : nd.low ≠ nd.high) :
    Reduced output2 ∧
    (∀ v vec nd2, output2.storage[v]? = some vec → nd2 ∈ vec →
      ((NodeMap.insert nodes cv nd p) (v, nd2)).isSome = true) := by
  unfold Bdd.push_node at hpush
  cases hvec : output.storage[cv]? with
  | none => rw [hvec] at hpush; exact Option.noConfusion hpush
  | some vec =>
    rw [hvec] at hpush
    dsimp only at hpush
    cases hnew : NodePointer.new cv vec.length with
    | none => rw [hnew] at hpush; exact Option.noConfusion hpush
    | some q =>
      rw [hnew] at hpush
      have hpq : ((q, ⟨output.root, output.storage.set cv (vec ++ [nd])⟩) : Nat × Bdd)
          = (p, output2) := by
        simpa using hpush
      injection hpq with hq hout2
      have hout2s : output2.storage = output.storage.set cv (vec ++ [nd]) := by
        rw [← hout2]
      have hmemvec : vec ∈ output.storage := by
        obtain ⟨hlt, hget⟩ := List.getElem?_eq_some.mp hvec
        exact hget ▸ List.getElem_mem hlt
      have hndnotin : nd ∉ vec := by
        intro hmem
        have := hB cv vec nd hvec hmem
        rw [hfind] at this
        simp at this
      obtain ⟨hcvlt, -⟩ := List.getElem?_eq_some.mp hvec
      constructor
      · intro vec2 hmem2
        rw [hout2s] at hmem2
        rcases List.mem_or_eq_of_mem_set hmem2 with hold | hnew2
        · exact hA vec2 hold
        · subst hnew2
          obtain ⟨hnodup, hlh⟩ := hA vec hmemvec
          constructor
          · rw [List.nodup_append]
            exact ⟨hnodup, List.nodup_singleton nd,
              fun a ha hb => hndnotin ((List.mem_singleton.mp hb) ▸ ha)⟩
          · intro nd2 hnd2
            rcases List.mem_append.mp hnd2 with hin | hin
            · exact hlh nd2 hin
            · rw [List.mem_singleton.mp hin]
              exact hne
      · intro v vec2 nd2 hget hmem2
        rw [hout2s] at hget
        by_cases hveq : v = cv
        · subst hveq
          rw [List.getElem?_set_self hcvlt] at hget
          have hvec2 : vec2 = vec ++ [nd] := by
            exact (Option.some.injEq .. ▸ hget).symm
          subst hvec2
          rcases List.mem_append.mp hmem2 with hin | hin
          · have := hB v vec nd2 hvec hin
            unfold NodeMap.insert
            by_cases hk : ((v : Nat), nd2) = (v, nd)
            · rw [if_pos hk]; rfl
            · rw [if_neg hk]; exact this
          · rw [List.mem_singleton.mp hin]
            unfold NodeMap.insert
            rw [if_pos rfl]
            rfl
        · rw [List.getElem?_set_ne (fun h => hveq h.symm)] at hget
          have := hB v vec2 nd2 hget hmem2
          unfold NodeMap.insert
          by_cases hk : ((v : Nat), nd2) = (cv, nd)
          · rw [if_pos hk]; rfl
          · rw [if_neg hk]; exact this

end BddU16

namespace BddU16

/-- Helper: the apply loop preserves reducedness of the output under the
uniqueness-map coverage invariant. -/
theorem applyLoop_reduced (L R : Bdd) (t : Option Bool → Option Bool → Option Bool) :
    ∀ (fuel : Nat) (stack : List (Nat × Nat)) (tasks : TaskMap) (nodes : NodeMap)
      (output : Bdd) (tm : TaskMap) (out : Bdd),
    Reduced output →
    (∀ v vec nd, output.storage[v]? = some vec → nd ∈ vec → (nodes (v, nd)).isSome = true) →
    applyLoop L R t fuel stack tasks nodes output = .ok (tm, out) →
    Reduced out := by
  intro fuel
  induction fuel with
  | zero =>
    intro stack tasks nodes output tm out hA hB h
    exact absurd h (by simp [applyLoop])
  | succ fuel ih =>
    intro stack tasks nodes output tm out hA hB h
    cases stack with
    | nil =>
      simp only [applyLoop] at h
      injection h with h1
      injection h1 with h2 h3
      exact h3 ▸ hA
    | cons hd rest =>
      obtain ⟨l, r⟩ := hd
      simp only [applyLoop] at h
      cases hres : TaskMap.resolve tasks l r with
      | some x =>
        rw [hres] at h
        exact ih rest tasks nodes output tm out hA hB h
      | none =>
        rw [hres] at h
        dsimp only at h
        split at h
        · exact Except.noConfusion h
        · split at h
          · exact Except.noConfusion h
          · exact Except.noConfusion h
          · split at h
            · rename_i a b ha hb
              split at h
              · exact ih rest _ nodes output tm out hA hB h
              · rename_i hab
                split at h
                · exact ih rest _ nodes output tm out hA hB h
                · rename_i hfind
                  split at h
                  · exact Except.noConfusion h
                  · rename_i newp output2 hpush
                    have hne : (⟨a, b⟩ : Node).low ≠ (⟨a, b⟩ : Node).high := by
                      simpa using hab
                    obtain ⟨hA2, hB2⟩ := push_node_invariants output _ ⟨a, b⟩ newp output2
                      nodes hpush hA hB hfind hne
                    exact ih rest _ _ output2 tm out hA2 hB2 h
            · exact ih _ tasks nodes output tm out hA hB h
end BddU16

namespace BddU16

/-- Helper: the blank output `Bdd` is reduced. -/
theorem mk_blank_reduced (v : Bool) : Reduced (Bdd.mk_blank v) := by
  intro vec hv
  have hvec : vec = [] := List.eq_of_mem_replicate hv
  subst hvec
  exact ⟨List.nodup_nil, fun nd hnd => absurd hnd (List.not_mem_nil nd)⟩

/-- Helper: the empty uniqueness map covers the blank output. -/
theorem mk_blank_coverage (v : Bool) :
    ∀ i vec nd, (Bdd.mk_blank v).storage[i]? = some vec → nd ∈ vec →
      ((NodeMap.empty) (i, nd)).isSome = true := by
  intro i vec nd hget hmem
  rw [show (Bdd.mk_blank v).storage = List.replicate 64 [] from rfl,
    List.getElem?_replicate] at hget
  by_cases hi : i < 64
  · rw [if_pos hi] at hget
    injection hget with hvec
    subst hvec
    exact absurd hmem (List.not_mem_nil nd)
  · rw [if_neg hi] at hget
    exact Option.noConfusion hget

/-- C3: every public operation returns a reduced `Bdd`: any successful
`apply` (hence `and`, `or`, `xor`, `imp`, `iff`, `and_not` for any terminal
table), `not` on a reduced input, `mk_var`, and the constants produce
storage with no node whose children coincide and no two identical nodes at
the same variable. -/
theorem public_ops_reduced :
    (∀ (L R : Bdd) (t : Option Bool → Option Bool → Option Bool) (fuel : Nat) (res : Bdd),
      apply L R t fuel = .ok res → Reduced res) ∧
    (∀ b : Bdd, Reduced b → Reduced b.not) ∧
    (∀ (v : Nat) (value : Bool) (b : Bdd), Bdd.mk_var v value = some b → Reduced b) ∧
    Reduced Bdd.mk_true ∧ Reduced Bdd.mk_false := by
  have hconst : ∀ c : Bool, Reduced (Bdd.mk_const c) := by
    intro c vec hv
    exact absurd hv (List.not_mem_nil vec)
  refine ⟨?_, ?_, ?_, ?_, ?_⟩
  · intro L R t fuel res h
    simp only [apply] at h
    split at h
    · injection h with h1
      rw [← h1]
      exact hconst _
    · split at h
      · exact Except.noConfusion h
      · split at h
        · exact Except.noConfusion h
        · rename_i tasks output hloop
          split at h
          · exact Except.noConfusion h
          · rename_i result hres
            split at h
            · injection h with h1
              rw [← h1]
              exact hconst _
            · injection h with h1
              rw [← h1]
              intro vec hv
              exact applyLoop_reduced L R t fuel _ TaskMap.empty NodeMap.empty
                (Bdd.mk_blank false) tasks output (mk_blank_reduced false)
                (mk_blank_coverage false) hloop vec hv
  · intro b hb
    unfold Bdd.not
    by_cases ht : Bdd.is_true b = true
    · rw [if_pos ht]
      exact hconst false
    · rw [if_neg (by simp [ht])]
      by_cases hf : Bdd.is_false b = true
      · rw [if_pos hf]
        exact hconst true
      · rw [if_neg (by simp [hf])]
        intro vec hv
        obtain ⟨vec0, hvec0, hmap⟩ := List.mem_map.mp hv
        obtain ⟨hnodup, hlh⟩ := hb vec0 hvec0
        have hflipinj : ∀ p q : Nat,
            NodePointer.flip_if_terminal p = NodePointer.flip_if_terminal q → p = q := by
          intro p q hpq
          have := congrArg NodePointer.flip_if_terminal hpq
          rwa [flip_if_terminal_involutive, flip_if_terminal_involutive] at this
        have hginj : Function.Injective fun n : Node =>
            (⟨NodePointer.flip_if_terminal n.low, NodePointer.flip_if_terminal n.high⟩ : Node) := by
          intro n1 n2 hg
          simp only [Node.mk.injEq] at hg
          cases n1
          cases n2
          simp only [Node.mk.injEq]
          exact ⟨hflipinj _ _ hg.1, hflipinj _ _ hg.2⟩
        constructor
        · rw [← hmap]
          exact hnodup.map hginj
        · intro nd hnd
          rw [← hmap] at hnd
          obtain ⟨nd0, hnd0, hg⟩ := List.mem_map.mp hnd
          rw [← hg]
          intro heq
          exact hlh nd0 hnd0 (hflipinj _ _ heq)
  · intro v value b h
    simp only [Bdd.mk_var, Bdd.push_node, Bdd.mk_blank] at h
    rw [List.getElem?_replicate] at h
    by_cases hv : v < 64
    · rw [if_pos hv] at h
      dsimp only at h
      cases hnew : NodePointer.new v List.nil.length with
      | none =>
        rw [hnew] at h
        exact Option.noConfusion h
      | some q =>
        rw [hnew] at h
        simp only [Option.map_map, Option.map_some'] at h
        injection h with h1
        rw [← h1]
        intro vec hv2
        rcases List.mem_or_eq_of_mem_set hv2 with hold | hnew2
        · have hvec : vec = [] := List.eq_of_mem_replicate hold
          subst hvec
          exact ⟨List.nodup_nil, fun nd hnd => absurd hnd (List.not_mem_nil nd)⟩
        · subst hnew2
          refine ⟨List.nodup_cons.mpr ⟨(List.not_mem_nil _), List.nodup_nil⟩, ?_⟩
          intro nd hnd
          rcases hnd with hnd | hnd
          · cases value <;> simp_all <;> decide
          · exact absurd (by assumption : nd ∈ ([] : List Node)) (List.not_mem_nil nd)
    · rw [if_neg hv] at h
      exact Option.noConfusion h
  · exact hconst true
  · exact hconst false

/-- Witness for C3: a concrete successful `apply` (the conjunction of two
literals), `not`, `mk_var`, and the constants all give reduced outputs. -/
theorem public_ops_reduced_witness :
    (∃ res, apply (litVar 0 true) (litVar 1 true) op_and 50 = .ok res ∧ Reduced res) ∧
    Reduced (litVar 2 true) ∧ Reduced (litVar 2 true).not ∧
    (∃ b, Bdd.mk_var 5 false = some b ∧ Reduced b) := by
  have happ : apply (litVar 0 true) (litVar 1 true) op_and 50 =
      .ok ((apply (litVar 0 true) (litVar 1 true) op_and 50).toOption.getD Bdd.mk_false) := by
    decide
  have hvar : Bdd.mk_var 5 false = some ((Bdd.mk_var 5 false).getD Bdd.mk_false) := by
    decide
  exact ⟨⟨_, happ, public_ops_reduced.1 _ _ op_and 50 _ happ⟩, by decide,
    public_ops_reduced.2.1 _ (by decide), ⟨_, hvar, public_ops_reduced.2.2.1 5 false _ hvar⟩⟩

end BddU16

namespace BddU16

/-- Helper: saving into a key-swapped task map is the key-swapped save. -/
theorem swap_save (m : TaskMap) (a b v : Nat) :
    TaskMap.save (fun k => m k.swap) b a v = fun k => TaskMap.save m a b v k.swap := by
  funext k
  unfold TaskMap.save
  by_cases hk : k = (b, a)
  · rw [if_pos hk, if_pos (by rw [hk]; rfl)]
  · rw [if_neg hk, if_neg ?_]
    intro hsw
    apply hk
    rw [← Prod.swap_swap k, hsw]
    rfl

/-- Helper: body of the swap simulation, after the branching variable and
the variable options of the two sides are fixed. -/
theorem applyLoop_swap_core (L R : Bdd) (t : Option Bool → Option Bool → Option Bool)
    (hsym : ∀ a b, t a b = t b a) (fuel : Nat)
    (ih : ∀ (stack : List (Nat × Nat)) (tasks : TaskMap) (nodes : NodeMap) (output : Bdd),
      applyLoop R L t fuel (stack.map Prod.swap) (fun k => tasks k.swap) nodes output
        = Except.map (fun p : TaskMap × Bdd => ((fun k => p.1 (Prod.swap k) : TaskMap), p.2))
            (applyLoop L R t fuel stack tasks nodes output))
    (rest : List (Nat × Nat)) (tasks : TaskMap) (nodes : NodeMap) (output : Bdd)
    (l r cvL cvR : Nat) (hcv : cvL = cvR) (lv rv : Option Nat) :
    (match
        (if some cvL == rv then
          (Bdd.node R cvL (NodePointer.node_index r)).map fun n => (n.low, n.high)
        else some (r, r)),
        (if some cvL == lv then
          (Bdd.node L cvL (NodePointer.node_index l)).map fun n => (n.low, n.high)
        else some (l, l)) with
      | none, _ => (Except.error ApplyError.panic : Except ApplyError (TaskMap × Bdd))
      | _, none => Except.error ApplyError.panic
      | some (lLow, lHigh), some (rLow, rHigh) =>
        match
          orOpt ((t (NodePointer.as_bool lLow) (NodePointer.as_bool rLow)).map
            NodePointer.terminal) (TaskMap.resolve (fun k => tasks k.swap) lLow rLow),
          orOpt ((t (NodePointer.as_bool lHigh) (NodePointer.as_bool rHigh)).map
            NodePointer.terminal) (TaskMap.resolve (fun k => tasks k.swap) lHigh rHigh) with
        | some a, some b =>
          if a == b then
            applyLoop R L t fuel (rest.map Prod.swap)
              (TaskMap.save (fun k => tasks k.swap) r l a) nodes output
          else
            match NodeMap.find nodes cvL ⟨a, b⟩ with
            | some existing =>
              applyLoop R L t fuel (rest.map Prod.swap)
                (TaskMap.save (fun k => tasks k.swap) r l existing) nodes output
            | none =>
              match Bdd.push_node output cvL ⟨a, b⟩ with
              | none => .error .panic
              | some (newPointer, output2) =>
                applyLoop R L t fuel (rest.map Prod.swap)
                  (TaskMap.save (fun k => tasks k.swap) r l newPointer)
                  (NodeMap.insert nodes cvL ⟨a, b⟩ newPointer) output2
        | _, _ =>
          let s1 := if (orOpt ((t (NodePointer.as_bool lLow) (NodePointer.as_bool rLow)).map
              NodePointer.terminal) (TaskMap.resolve (fun k => tasks k.swap) lLow rLow)) = none
            then (lLow, rLow) :: (r, l) :: rest.map Prod.swap
            else (r, l) :: rest.map Prod.swap
          let s2 := if (orOpt ((t (NodePointer.as_bool lHigh) (NodePointer.as_bool rHigh)).map
              NodePointer.terminal) (TaskMap.resolve (fun k => tasks k.swap) lHigh rHigh)) = none
            then (lHigh, rHigh) :: s1
            else s1
          applyLoop R L t fuel s2 (fun k => tasks k.swap) nodes output)
    = Except.map (fun p : TaskMap × Bdd => ((fun k => p.1 (Prod.swap k) : TaskMap), p.2))
        (match
          (if some cvR == lv then
            (Bdd.node L cvR (NodePointer.node_index l)).map fun n => (n.low, n.high)
          else some (l, l)),
          (if some cvR == rv then
            (Bdd.node R cvR (NodePointer.node_index r)).map fun n => (n.low, n.high)
          else some (r, r)) with
        | none, _ => (Except.error ApplyError.panic : Except ApplyError (TaskMap × Bdd))
        | _, none => Except.error ApplyError.panic
        | some (lLow, lHigh), some (rLow, rHigh) =>
          match
            orOpt ((t (NodePointer.as_bool lLow) (NodePointer.as_bool rLow)).map
              NodePointer.terminal) (TaskMap.resolve tasks lLow rLow),
            orOpt ((t (NodePointer.as_bool lHigh) (NodePointer.as_bool rHigh)).map
              NodePointer.terminal) (TaskMap.resolve tasks lHigh rHigh) with
          | some a, some b =>
            if a == b then
              applyLoop L R t fuel rest (TaskMap.save tasks l r a) nodes output
            else
              match NodeMap.find nodes cvR ⟨a, b⟩ with
              | some existing =>
                applyLoop L R t fuel rest (TaskMap.save tasks l r existing) nodes output
              | none =>
                match Bdd.push_node output cvR ⟨a, b⟩ with
                | none => .error .panic
                | some (newPointer, output2) =>
                  applyLoop L R t fuel rest (TaskMap.save tasks l r newPointer)
                    (NodeMap.insert nodes cvR ⟨a, b⟩ newPointer) output2
          | _, _ =>
            let s1 := if (orOpt ((t (NodePointer.as_bool lLow) (NodePointer.as_bool rLow)).map
                NodePointer.terminal) (TaskMap.resolve tasks lLow rLow)) = none
              then (lLow, rLow) :: (l, r) :: rest
              else (l, r) :: rest
            let s2 := if (orOpt ((t (NodePointer.as_bool lHigh) (NodePointer.as_bool rHigh)).map
                NodePointer.terminal) (TaskMap.resolve tasks lHigh rHigh)) = none
              then (lHigh, rHigh) :: s1
              else s1
            applyLoop L R t fuel s2 tasks nodes output) := by
  subst hcv
  generalize (if some cvL == lv then
      (Bdd.node L cvL (NodePointer.node_index l)).map fun n => (n.low, n.high)
    else some (l, l)) = lc
  generalize (if some cvL == rv then
      (Bdd.node R cvL (NodePointer.node_index r)).map fun n => (n.low, n.high)
    else some (r, r)) = rc
  cases lc with
  | none =>
    cases rc with
    | none => rfl
    | some q => obtain ⟨c, d⟩ := q; rfl
  | some p =>
    obtain ⟨a, b⟩ := p
    cases rc with
    | none => rfl
    | some q =>
      obtain ⟨c, d⟩ := q
      dsimp only
      have e1 : TaskMap.resolve (fun k => tasks k.swap) c a = TaskMap.resolve tasks a c := rfl
      have e2 : TaskMap.resolve (fun k => tasks k.swap) d b = TaskMap.resolve tasks b d := rfl
      rw [e1, e2, hsym (NodePointer.as_bool c) (NodePointer.as_bool a),
        hsym (NodePointer.as_bool d) (NodePointer.as_bool b)]
      generalize (orOpt ((t (NodePointer.as_bool a) (NodePointer.as_bool c)).map
        NodePointer.terminal) (TaskMap.resolve tasks a c)) = resL
      generalize (orOpt ((t (NodePointer.as_bool b) (NodePointer.as_bool d)).map
        NodePointer.terminal) (TaskMap.resolve tasks b d)) = resH
      cases resL with
      | none =>
        cases resH with
        | none => exact ih ((b, d) :: (a, c) :: (l, r) :: rest) tasks nodes output
        | some y => exact ih ((a, c) :: (l, r) :: rest) tasks nodes output
      | some x =>
        cases resH with
        | none => exact ih ((b, d) :: (l, r) :: rest) tasks nodes output
        | some y =>
          dsimp only
          by_cases hxy : (x == y) = true
          · rw [if_pos hxy, if_pos hxy, swap_save]
            exact ih rest (TaskMap.save tasks l r x) nodes output
          · rw [if_neg hxy, if_neg hxy]
            cases hfind : NodeMap.find nodes cvL ⟨x, y⟩ with
            | some existing =>
              dsimp only
              rw [swap_save]
              exact ih rest (TaskMap.save tasks l r existing) nodes output
            | none =>
              cases hpush : Bdd.push_node output cvL ⟨x, y⟩ with
              | none => rfl
              | some pr =>
                obtain ⟨np, o2⟩ := pr
                dsimp only
                rw [swap_save]
                exact ih rest (TaskMap.save tasks l r np)
                  (NodeMap.insert nodes cvL ⟨x, y⟩ np) o2

/-- Helper: the apply loop run with the two inputs exchanged, the task stack
and the task-map keys swapped, produces the swapped task map and the very
same output `Bdd`, provided the terminal table is symmetric. -/
theorem applyLoop_swap (L R : Bdd) (t : Option Bool → Option Bool → Option Bool)
    (hsym : ∀ a b, t a b = t b a) :
    ∀ (fuel : Nat) (stack : List (Nat × Nat)) (tasks : TaskMap) (nodes : NodeMap) (output : Bdd),
    applyLoop R L t fuel (stack.map Prod.swap) (fun k => tasks k.swap) nodes output
      = Except.map (fun p => (fun k => p.1 (Prod.swap k), p.2))
          (applyLoop L R t fuel stack tasks nodes output) := by
  intro fuel
  induction fuel with
  | zero =>
    intro stack tasks nodes output
    rfl
  | succ fuel ih =>
    intro stack tasks nodes output
    cases stack with
    | nil => rfl
    | cons hd rest =>
      obtain ⟨l, r⟩ := hd
      simp only [List.map_cons, Prod.swap_prod_mk, applyLoop]
      have hres0 : TaskMap.resolve (fun k => tasks k.swap) r l = TaskMap.resolve tasks l r := rfl
      rw [hres0]
      cases hres : TaskMap.resolve tasks l r with
      | some x => exact ih rest tasks nodes output
      | none =>
        generalize (if NodePointer.is_terminal l = true then none
          else some (NodePointer.variable_id l)) = lv
        generalize (if NodePointer.is_terminal r = true then none
          else some (NodePointer.variable_id r)) = rv
        cases lv with
        | none =>
          cases rv with
          | none => rfl
          | some vr =>
            exact applyLoop_swap_core L R t hsym fuel ih rest tasks nodes output l r
              vr vr rfl none (some vr)
        | some vl =>
          cases rv with
          | none =>
            exact applyLoop_swap_core L R t hsym fuel ih rest tasks nodes output l r
              vl vl rfl (some vl) none
          | some vr =>
            exact applyLoop_swap_core L R t hsym fuel ih rest tasks nodes output l r
              (min vr vl) (min vl vr) (min_comm vr vl) (some vl) (some vr)

end BddU16

namespace BddU16

/-- Helper: `apply` is commutative for any symmetric terminal table. -/
theorem apply_comm (A B : Bdd) (t : Option Bool → Option Bool → Option Bool)
    (hsym : ∀ a b, t a b = t b a) (fuel : Nat) :
    apply B A t fuel = apply A B t fuel := by
  simp only [apply]
  rw [hsym (NodePointer.as_bool B.root) (NodePointer.as_bool A.root)]
  cases htab : t (NodePointer.as_bool A.root) (NodePointer.as_bool B.root) with
  | some c => rfl
  | none =>
    dsimp only
    rw [Bool.and_comm]
    by_cases hsome : ((NodePointer.as_bool A.root).isSome
        && (NodePointer.as_bool B.root).isSome) = true
    · rw [if_pos hsome, if_pos hsome]
    · rw [if_neg hsome, if_neg hsome]
      have hswap := applyLoop_swap A B t hsym fuel [(A.root, B.root)] TaskMap.empty
        NodeMap.empty (Bdd.mk_blank false)
      rw [show List.map Prod.swap [(A.root, B.root)] = [(B.root, A.root)] from rfl,
        show (fun k => TaskMap.empty (Prod.swap k)) = TaskMap.empty from rfl] at hswap
      rw [hswap]
      cases hloop : applyLoop A B t fuel [(A.root, B.root)] TaskMap.empty NodeMap.empty
          (Bdd.mk_blank false) with
      | error e => rfl
      | ok pr =>
        obtain ⟨tm, out⟩ := pr
        dsimp only [Except.map]
        rw [show TaskMap.resolve (fun k => tm (Prod.swap k)) B.root A.root
          = TaskMap.resolve tm A.root B.root from rfl]

/-- C6: the symmetric connectives commute structurally: for all `Bdd`s and
every fuel, `and`, `or`, `iff` and `xor` return bit-identical results when
their arguments are exchanged (same root pointer, same storage, and the same
error on the same failure). -/
theorem symmetric_ops_commute (A B : Bdd) (fuel : Nat) :
    Bdd.and A B fuel = Bdd.and B A fuel ∧ Bdd.or A B fuel = Bdd.or B A fuel ∧
    Bdd.iff A B fuel = Bdd.iff B A fuel ∧ Bdd.xor A B fuel = Bdd.xor B A fuel :=
  ⟨(apply_comm A B op_and (by decide) fuel).symm,
    (apply_comm A B op_or (by decide) fuel).symm,
    (apply_comm A B op_iff (by decide) fuel).symm,
    (apply_comm A B op_xor (by decide) fuel).symm⟩

end BddU16

namespace BddU16

/-- Helper: resolving a diagonal task yields the fixed terminal, under a
diagonal terminal table and a task map whose values are all that terminal. -/
theorem orOpt_diag (t : Option Bool → Option Bool → Option Bool) (c : Bool)
    (hdiag : ∀ b : Bool, t (some b) (some b) = some c)
    (hnn : t none none = none) (tasks : TaskMap)
    (hinv : ∀ k v, tasks k = some v → v = NodePointer.terminal c)
    (x v : Nat)
    (h : orOpt ((t (NodePointer.as_bool x) (NodePointer.as_bool x)).map NodePointer.terminal)
      (TaskMap.resolve tasks x x) = some v) :
    v = NodePointer.terminal c := by
  cases hab : NodePointer.as_bool x with
  | some b =>
    rw [hab, hdiag b] at h
    simp only [Option.map_some', orOpt] at h
    injection h with h1
    exact h1.symm
  | none =>
    rw [hab, hnn] at h
    simp only [Option.map_none', orOpt] at h
    exact hinv _ _ h

/-- Helper: saving the fixed terminal preserves the all-terminal invariant. -/
theorem save_diag (c : Bool) (tasks : TaskMap)
    (hinv : ∀ k v, tasks k = some v → v = NodePointer.terminal c)
    (l r a : Nat) (ha : a = NodePointer.terminal c) :
    ∀ k v, TaskMap.save tasks l r a k = some v → v = NodePointer.terminal c := by
  intro k v h
  unfold TaskMap.save at h
  by_cases hk : k = (l, r)
  · rw [if_pos hk] at h
    injection h with h1
    rw [← h1]
    exact ha
  · rw [if_neg hk] at h
    exact hinv _ _ h

/-- Helper: on a diagonal task stack with a diagonal terminal table, the
apply loop only ever stores the fixed terminal as a task result. -/
theorem applyLoop_diag (A : Bdd) (t : Option Bool → Option Bool → Option Bool) (c : Bool)
    (hdiag : ∀ b : Bool, t (some b) (some b) = some c)
    (hnn : t none none = none) :
    ∀ (fuel : Nat) (stack : List (Nat × Nat)) (tasks : TaskMap) (nodes : NodeMap)
      (output : Bdd) (tm : TaskMap) (out : Bdd),
    (∀ p ∈ stack, p.1 = p.2) →
    (∀ k v, tasks k = some v → v = NodePointer.terminal c) →
    applyLoop A A t fuel stack tasks nodes output = .ok (tm, out) →
    (∀ k v, tm k = some v → v = NodePointer.terminal c) := by
  intro fuel
  induction fuel with
  | zero =>
    intro stack tasks nodes output tm out hs hinv h
    exact absurd h (by simp [applyLoop])
  | succ fuel ih =>
    intro stack tasks nodes output tm out hs hinv h
    cases stack with
    | nil =>
      simp only [applyLoop] at h
      injection h with h1
      injection h1 with h2 h3
      exact h2 ▸ hinv
    | cons hd rest =>
      obtain ⟨l, r⟩ := hd
      have hlr : l = r := hs (l, r) (List.mem_cons_self _ _)
      subst hlr
      have hrest : ∀ p ∈ rest, p.1 = p.2 := fun p hp => hs p (List.mem_cons_of_mem _ hp)
      simp only [applyLoop] at h
      cases hres : TaskMap.resolve tasks l l with
      | some x =>
        rw [hres] at h
        exact ih rest tasks nodes output tm out hrest hinv h
      | none =>
        rw [hres] at h
        dsimp only at h
        split at h
        · exact Except.noConfusion h
        · split at h
          · exact Except.noConfusion h
          · exact Except.noConfusion h
          · rename_i lLow lHigh rLow rHigh heqL heqR
            have hCC := heqL.symm.trans heqR
            injection hCC with hcc
            injection hcc with hcc1 hcc2
            subst hcc1
            subst hcc2
            split at h
            · rename_i a b ha hb
              have ha2 : a = NodePointer.terminal c := orOpt_diag t c hdiag hnn tasks hinv _ _ ha
              have hb2 : b = NodePointer.terminal c := orOpt_diag t c hdiag hnn tasks hinv _ _ hb
              split at h
              · exact ih rest _ nodes output tm out hrest
                  (save_diag c tasks hinv _ _ _ ha2) h
              · rename_i hab
                exact absurd (by rw [ha2, hb2]; exact beq_self_eq_true _) hab
            · refine ih _ tasks nodes output tm out ?_ hinv h
              intro p hp
              split at hp
              · rcases List.mem_cons.mp hp with heq | hp2
                · subst heq; rfl
                · split at hp2
                  · rcases List.mem_cons.mp hp2 with heq | hp3
                    · subst heq; rfl
                    · rcases List.mem_cons.mp hp3 with heq | hp4
                      · subst heq; rfl
                      · exact hrest p hp4
                  · rcases List.mem_cons.mp hp2 with heq | hp3
                    · subst heq; rfl
                    · exact hrest p hp3
              · split at hp
                · rcases List.mem_cons.mp hp with heq | hp3
                  · subst heq; rfl
                  · rcases List.mem_cons.mp hp3 with heq | hp4
                    · subst heq; rfl
                    · exact hrest p hp4
                · rcases List.mem_cons.mp hp with heq | hp3
                  · subst heq; rfl
                  · exact hrest p hp3

/-- Helper: a successful `apply(A, A)` with a diagonal table returns the
fixed constant. -/
theorem apply_diag (A : Bdd) (t : Option Bool → Option Bool → Option Bool) (c : Bool)
    (hdiag : ∀ b : Bool, t (some b) (some b) = some c)
    (hnn : t none none = none) (fuel : Nat) (res : Bdd)
    (h : apply A A t fuel = .ok res) : res = Bdd.mk_const c := by
  simp only [apply] at h
  split at h
  · rename_i c2 htab
    have hc2 : c2 = c := by
      cases hab : NodePointer.as_bool A.root with
      | some b => rw [hab, hdiag b] at htab; injection htab with h1; exact h1.symm
      | none => rw [hab, hnn] at htab; exact Option.noConfusion htab
    injection h with h1
    rw [← h1, hc2]
  · split at h
    · exact Except.noConfusion h
    · split at h
      · exact Except.noConfusion h
      · rename_i tm out hloop
        split at h
        · exact Except.noConfusion h
        · rename_i result hresolve
          have hterm : result = NodePointer.terminal c :=
            applyLoop_diag A t c hdiag hnn fuel _ TaskMap.empty NodeMap.empty
              (Bdd.mk_blank false) tm out
              (by intro p hp; rcases List.mem_cons.mp hp with heq | hp2
                  · subst heq; rfl
                  · exact absurd hp2 (List.not_mem_nil p))
              (by intro k v hk; exact Option.noConfusion hk) hloop _ _ hresolve
          subst hterm
          have habt : ∀ cc : Bool, NodePointer.as_bool (NodePointer.terminal cc) = some cc := by
            decide
          split at h
          · rename_i c3 hc3
            rw [habt c] at hc3
            injection hc3 with hc3e
            injection h with h1
            rw [← h1, ← hc3e]
          · rename_i hc3
            rw [habt c] at hc3
            exact Option.noConfusion hc3

end BddU16

namespace BddU16

/-- Helper: saving through the constant-companion embedding of a task map. -/
theorem save_embed (tasks : Nat → Option Nat) (rc l x : Nat) :
    TaskMap.save (fun k => if k.2 = rc then tasks k.1 else none) l rc x
      = fun k => if k.2 = rc then (fun k0 => if k0 = l then some x else tasks k0) k.1
          else none := by
  funext k
  obtain ⟨k1, k2⟩ := k
  unfold TaskMap.save
  dsimp only
  by_cases h2 : k2 = rc
  · subst h2
    rw [if_pos rfl, if_pos rfl]
    by_cases h1 : k1 = l
    · subst h1
      rw [if_pos rfl, if_pos rfl]
    · rw [if_neg (fun hp => h1 (congrArg Prod.fst hp)), if_neg h1]
  · rw [if_neg (fun hp => h2 (congrArg Prod.snd hp)), if_neg h2, if_neg h2]

/-- Helper: body of the relayout simulation, once the branching variable and
the two child resolutions are fixed. -/
theorem applyLoop_relayout_core (A right : Bdd) (t : Option Bool → Option Bool → Option Bool)
    (rc : Nat) (fuel : Nat)
    (ih : ∀ (stack : List Nat) (tasks : Nat → Option Nat) (nodes : NodeMap) (output : Bdd),
      applyLoop A right t fuel (stack.map fun x => (x, rc))
        (fun k => if k.2 = rc then tasks k.1 else none) nodes output
      = Except.map (fun p : (Nat → Option Nat) × Bdd =>
          ((fun k => if k.2 = rc then p.1 k.1 else none : TaskMap), p.2))
          (relayoutLoop A fuel stack tasks nodes output))
    (rest : List Nat) (tasks : Nat → Option Nat) (nodes : NodeMap) (output : Bdd)
    (l cv low high : Nat) (EL EH : Option Nat) :
    (match EL, EH with
      | some a, some b =>
        if a == b then
          applyLoop A right t fuel (rest.map fun x => (x, rc))
            (TaskMap.save (fun k => if k.2 = rc then tasks k.1 else none) l rc a) nodes output
        else
          match NodeMap.find nodes cv ⟨a, b⟩ with
          | some existing =>
            applyLoop A right t fuel (rest.map fun x => (x, rc))
              (TaskMap.save (fun k => if k.2 = rc then tasks k.1 else none) l rc existing)
              nodes output
          | none =>
            match Bdd.push_node output cv ⟨a, b⟩ with
            | none => (Except.error ApplyError.panic : Except ApplyError (TaskMap × Bdd))
            | some (newPointer, output2) =>
              applyLoop A right t fuel (rest.map fun x => (x, rc))
                (TaskMap.save (fun k => if k.2 = rc then tasks k.1 else none) l rc newPointer)
                (NodeMap.insert nodes cv ⟨a, b⟩ newPointer) output2
      | _, _ =>
        let s1 := if EL = none then (low, rc) :: (l, rc) :: (rest.map fun x => (x, rc))
          else (l, rc) :: (rest.map fun x => (x, rc))
        let s2 := if EH = none then (high, rc) :: s1 else s1
        applyLoop A right t fuel s2
          (fun k => if k.2 = rc then tasks k.1 else none) nodes output)
    = Except.map (fun p : (Nat → Option Nat) × Bdd =>
        ((fun k => if k.2 = rc then p.1 k.1 else none : TaskMap), p.2))
        (match EL, EH with
          | some x, some y =>
            if x == y then
              relayoutLoop A fuel rest (fun k => if k = l then some x else tasks k) nodes output
            else
              match NodeMap.find nodes cv ⟨x, y⟩ with
              | some existing =>
                relayoutLoop A fuel rest (fun k => if k = l then some existing else tasks k)
                  nodes output
              | none =>
                match Bdd.push_node output cv ⟨x, y⟩ with
                | none => .error .panic
                | some (newPointer, output2) =>
                  relayoutLoop A fuel rest (fun k => if k = l then some newPointer else tasks k)
                    (NodeMap.insert nodes cv ⟨x, y⟩ newPointer) output2
          | _, _ =>
            let s1 := if EL = none then low :: l :: rest else l :: rest
            let s2 := if EH = none then high :: s1 else s1
            relayoutLoop A fuel s2 tasks nodes output) := by
  cases EL with
  | none =>
    cases EH with
    | none => exact ih (high :: low :: l :: rest) tasks nodes output
    | some y => exact ih (low :: l :: rest) tasks nodes output
  | some x =>
    cases EH with
    | none => exact ih (high :: l :: rest) tasks nodes output
    | some y =>
      dsimp only
      by_cases hxy : (x == y) = true
      · rw [if_pos hxy, if_pos hxy, save_embed]
        exact ih rest (fun k0 => if k0 = l then some x else tasks k0) nodes output
      · rw [if_neg hxy, if_neg hxy]
        cases hfind : NodeMap.find nodes cv ⟨x, y⟩ with
        | some existing =>
          dsimp only
          rw [save_embed]
          exact ih rest (fun k0 => if k0 = l then some existing else tasks k0) nodes output
        | none =>
          cases hpush : Bdd.push_node output cv ⟨x, y⟩ with
          | none => rfl
          | some pr =>
            obtain ⟨np, o2⟩ := pr
            dsimp only
            rw [save_embed]
            exact ih rest (fun k0 => if k0 = l then some np else tasks k0)
              (NodeMap.insert nodes cv ⟨x, y⟩ np) o2

end BddU16

namespace BddU16

/-- Helper: against a constant right operand whose table resolves exactly
the terminal children (to themselves), the apply loop is the canonical
relayout loop of its left operand. -/
theorem applyLoop_relayout (A right : Bdd) (t : Option Bool → Option Bool → Option Bool)
    (rc : Nat) (hrc : NodePointer.is_terminal rc = true)
    (htab : ∀ p : Nat, t (NodePointer.as_bool p) (NodePointer.as_bool rc)
      = if NodePointer.is_terminal p then some ((p != 0 : Bool)) else none) :
    ∀ (fuel : Nat) (stack : List Nat) (tasks : Nat → Option Nat) (nodes : NodeMap)
      (output : Bdd),
    applyLoop A right t fuel (stack.map fun x => (x, rc))
      (fun k => if k.2 = rc then tasks k.1 else none) nodes output
    = Except.map (fun p : (Nat → Option Nat) × Bdd =>
        ((fun k => if k.2 = rc then p.1 k.1 else none : TaskMap), p.2))
        (relayoutLoop A fuel stack tasks nodes output) := by
  intro fuel
  induction fuel with
  | zero => intro stack tasks nodes output; rfl
  | succ fuel ih =>
    intro stack tasks nodes output
    cases stack with
    | nil => rfl
    | cons l rest =>
      simp only [List.map_cons, applyLoop, relayoutLoop]
      have e0 : TaskMap.resolve (fun k => if k.2 = rc then tasks k.1 else none) l rc
          = tasks l := by
        show (if rc = rc then tasks l else none) = tasks l
        rw [if_pos rfl]
      rw [e0]
      cases hres : tasks l with
      | some x => exact ih rest tasks nodes output
      | none =>
        have ervar : (if NodePointer.is_terminal rc = true then none
            else some (NodePointer.variable_id rc)) = (none : Option Nat) := by
          rw [hrc]
          rfl
        rw [ervar]
        by_cases htl : NodePointer.is_terminal l = true
        · rw [htl]
          rfl
        · have htl2 : NodePointer.is_terminal l = false := by
            simpa using htl
          have elvar : (if NodePointer.is_terminal l = true then none
              else some (NodePointer.variable_id l)) = some (NodePointer.variable_id l) := by
            rw [htl2]
            rfl
          rw [elvar, htl2]
          dsimp only
          have echildL : (if (some (NodePointer.variable_id l)
                == some (NodePointer.variable_id l)) = true
              then (Bdd.node A (NodePointer.variable_id l)
                (NodePointer.node_index l)).map fun n => (n.low, n.high)
              else some (l, l))
            = (Bdd.node A (NodePointer.variable_id l)
                (NodePointer.node_index l)).map fun n => (n.low, n.high) := by
            rw [beq_self_eq_true]
            rfl
          have echildR : (if (some (NodePointer.variable_id l) == (none : Option Nat)) = true
              then (Bdd.node right (NodePointer.variable_id l)
                (NodePointer.node_index rc)).map fun n => (n.low, n.high)
              else some (rc, rc)) = some (rc, rc) := by
            rfl
          rw [echildL, echildR]
          cases hnode : Bdd.node A (NodePointer.variable_id l) (NodePointer.node_index l) with
          | none => rfl
          | some n =>
            simp only [Option.map_some']
            rw [htab n.low, htab n.high]
            have eres : ∀ x : Nat,
                TaskMap.resolve (fun k => if k.2 = rc then tasks k.1 else none) x rc
                  = tasks x := by
              intro x
              show (if rc = rc then tasks x else none) = tasks x
              rw [if_pos rfl]
            rw [eres n.low, eres n.high]
            by_cases hL : NodePointer.is_terminal n.low = true
            · have eL : orOpt ((if NodePointer.is_terminal n.low = true
                    then some ((n.low != 0 : Bool)) else none).map NodePointer.terminal)
                  (tasks n.low) = some (NodePointer.terminal (n.low != 0)) := by
                rw [hL]
                rfl
              have eL2 : (if NodePointer.is_terminal n.low = true
                    then some (NodePointer.terminal (n.low != 0)) else tasks n.low)
                  = some (NodePointer.terminal (n.low != 0)) := by
                rw [hL]
                rfl
              rw [eL, eL2]
              by_cases hH : NodePointer.is_terminal n.high = true
              · have eH : orOpt ((if NodePointer.is_terminal n.high = true
                      then some ((n.high != 0 : Bool)) else none).map NodePointer.terminal)
                    (tasks n.high) = some (NodePointer.terminal (n.high != 0)) := by
                  rw [hH]
                  rfl
                have eH2 : (if NodePointer.is_terminal n.high = true
                      then some (NodePointer.terminal (n.high != 0)) else tasks n.high)
                    = some (NodePointer.terminal (n.high != 0)) := by
                  rw [hH]
                  rfl
                rw [eH, eH2]
                exact applyLoop_relayout_core A right t rc fuel ih rest tasks nodes output
                  l (NodePointer.variable_id l) n.low n.high
                  (some (NodePointer.terminal (n.low != 0))) (some (NodePointer.terminal (n.high != 0)))
              · have hH2 : NodePointer.is_terminal n.high = false := by simpa using hH
                have eH : orOpt ((if NodePointer.is_terminal n.high = true
                      then some ((n.high != 0 : Bool)) else none).map NodePointer.terminal)
                    (tasks n.high) = tasks n.high := by
                  rw [hH2]
                  rfl
                have eH2 : (if NodePointer.is_terminal n.high = true
                      then some (NodePointer.terminal (n.high != 0)) else tasks n.high)
                    = tasks n.high := by
                  rw [hH2]
                  rfl
                rw [eH, eH2]
                exact applyLoop_relayout_core A right t rc fuel ih rest tasks nodes output
                  l (NodePointer.variable_id l) n.low n.high
                  (some (NodePointer.terminal (n.low != 0))) (tasks n.high)
            · have hL2 : NodePointer.is_terminal n.low = false := by simpa using hL
              have eL : orOpt ((if NodePointer.is_terminal n.low = true
                    then some ((n.low != 0 : Bool)) else none).map NodePointer.terminal)
                  (tasks n.low) = tasks n.low := by
                rw [hL2]
                rfl
              have eL2 : (if NodePointer.is_terminal n.low = true
                    then some (NodePointer.terminal (n.low != 0)) else tasks n.low)
                  = tasks n.low := by
                rw [hL2]
                rfl
              rw [eL, eL2]
              by_cases hH : NodePointer.is_terminal n.high = true
              · have eH : orOpt ((if NodePointer.is_terminal n.high = true
                      then some ((n.high != 0 : Bool)) else none).map NodePointer.terminal)
                    (tasks n.high) = some (NodePointer.terminal (n.high != 0)) := by
                  rw [hH]
                  rfl
                have eH2 : (if NodePointer.is_terminal n.high = true
                      then some (NodePointer.terminal (n.high != 0)) else tasks n.high)
                    = some (NodePointer.terminal (n.high != 0)) := by
                  rw [hH]
                  rfl
                rw [eH, eH2]
                exact applyLoop_relayout_core A right t rc fuel ih rest tasks nodes output
                  l (NodePointer.variable_id l) n.low n.high
                  (tasks n.low) (some (NodePointer.terminal (n.high != 0)))
              · have hH2 : NodePointer.is_terminal n.high = false := by simpa using hH
                have eH : orOpt ((if NodePointer.is_terminal n.high = true
                      then some ((n.high != 0 : Bool)) else none).map NodePointer.terminal)
                    (tasks n.high) = tasks n.high := by
                  rw [hH2]
                  rfl
                have eH2 : (if NodePointer.is_terminal n.high = true
                      then some (NodePointer.terminal (n.high != 0)) else tasks n.high)
                    = tasks n.high := by
                  rw [hH2]
                  rfl
                rw [eH, eH2]
                exact applyLoop_relayout_core A right t rc fuel ih rest tasks nodes output
                  l (NodePointer.variable_id l) n.low n.high
                  (tasks n.low) (tasks n.high)

end BddU16

namespace BddU16

/-- Helper: `apply` against a constant right operand with a resolving table
is exactly the canonical relayout of the left operand. -/
theorem apply_relayout (A right : Bdd) (t : Option Bool → Option Bool → Option Bool)
    (hrc : NodePointer.is_terminal right.root = true)
    (htab : ∀ p : Nat, t (NodePointer.as_bool p) (NodePointer.as_bool right.root)
      = if NodePointer.is_terminal p then some ((p != 0 : Bool)) else none)
    (fuel : Nat) :
    apply A right t fuel = relayout A fuel := by
  simp only [apply, relayout]
  rw [htab A.root]
  by_cases hterm : NodePointer.is_terminal A.root = true
  · have e1 : (if NodePointer.is_terminal A.root = true
        then some ((A.root != 0 : Bool)) else none) = some ((A.root != 0 : Bool)) := by
      rw [hterm]
      rfl
    have e2 : NodePointer.as_bool A.root = some ((A.root != 0 : Bool)) := by
      unfold NodePointer.as_bool
      rw [hterm]
      rfl
    rw [e1, e2]
  · have hterm2 : NodePointer.is_terminal A.root = false := by simpa using hterm
    have e1 : (if NodePointer.is_terminal A.root = true
        then some ((A.root != 0 : Bool)) else none) = none := by
      rw [hterm2]
      rfl
    have e2 : NodePointer.as_bool A.root = none := by
      unfold NodePointer.as_bool
      rw [hterm2]
      rfl
    rw [e1, e2]
    dsimp only
    rw [if_neg (by simp :
      ¬((((none : Option Bool)).isSome && (NodePointer.as_bool right.root).isSome) = true))]
    have einit : TaskMap.empty = (fun k : Nat × Nat =>
        if k.2 = right.root then (fun _ : Nat => (none : Option Nat)) k.1 else none) := by
      funext k
      exact (ite_self _).symm
    rw [show [(A.root, right.root)]
        = List.map (fun x => (x, right.root)) [A.root] from rfl, einit]
    rw [applyLoop_relayout A right t right.root hrc htab fuel [A.root] (fun _ => none)
      NodeMap.empty (Bdd.mk_blank false)]
    cases hloop : relayoutLoop A fuel [A.root] (fun _ => none) NodeMap.empty
        (Bdd.mk_blank false) with
    | error e => rfl
    | ok pr =>
      obtain ⟨tm, out⟩ := pr
      dsimp only [Except.map]
      rw [show TaskMap.resolve (fun k => if k.2 = right.root then tm k.1 else none)
          A.root right.root = tm A.root from by
        show (if right.root = right.root then tm A.root else none) = tm A.root
        rw [if_pos rfl]]

/-- Helper: the `∧` table resolves any pointer against the `⊤` terminal. -/
theorem op_and_true_htab : ∀ p : Nat,
    op_and (NodePointer.as_bool p) (NodePointer.as_bool Bdd.mk_true.root)
      = if NodePointer.is_terminal p then some ((p != 0 : Bool)) else none := by
  intro p
  show op_and (NodePointer.as_bool p) (some true) = _
  unfold NodePointer.as_bool
  by_cases hp : NodePointer.is_terminal p = true
  · rw [if_pos hp]
    cases hb : (p != 0 : Bool) <;> rfl
  · rw [if_neg hp]
    rfl

/-- Helper: the `∨` table resolves any pointer against the `⊥` terminal. -/
theorem op_or_false_htab : ∀ p : Nat,
    op_or (NodePointer.as_bool p) (NodePointer.as_bool Bdd.mk_false.root)
      = if NodePointer.is_terminal p then some ((p != 0 : Bool)) else none := by
  intro p
  show op_or (NodePointer.as_bool p) (some false) = _
  unfold NodePointer.as_bool
  by_cases hp : NodePointer.is_terminal p = true
  · rw [if_pos hp]
    cases hb : (p != 0 : Bool) <;> rfl
  · rw [if_neg hp]
    rfl

/-- C7: identity and annihilator laws, structurally. `and(A, ⊤)` and
`or(A, ⊥)` reproduce `A` exactly when `A` carries the canonical DFS layout
(`relayout A = .ok A`, the well-formedness invariant of section 3 that every
API-produced `Bdd` enjoys); `and(A, ⊥)` and `or(A, ⊤)` return the constants
outright; and `xor/iff/imp` on equal arguments resolve every diagonal task
to the fixed terminal, so any successful run returns the constant. -/
theorem identity_annihilator_laws (A : Bdd) (fuel : Nat) :
    (relayout A fuel = .ok A → Bdd.and A Bdd.mk_true fuel = .ok A) ∧
    Bdd.and A Bdd.mk_false fuel = .ok Bdd.mk_false ∧
    Bdd.or A Bdd.mk_true fuel = .ok Bdd.mk_true ∧
    (relayout A fuel = .ok A → Bdd.or A Bdd.mk_false fuel = .ok A) ∧
    (∀ res, Bdd.xor A A fuel = .ok res → res = Bdd.mk_false) ∧
    (∀ res, Bdd.iff A A fuel = .ok res → res = Bdd.mk_true) ∧
    (∀ res, Bdd.imp A A fuel = .ok res → res = Bdd.mk_true) := by
  refine ⟨?_, ?_, ?_, ?_, ?_, ?_, ?_⟩
  · intro h
    unfold Bdd.and
    rw [apply_relayout A Bdd.mk_true op_and (by decide) op_and_true_htab fuel]
    exact h
  · simp only [Bdd.and, apply]
    have e : op_and (NodePointer.as_bool A.root) (NodePointer.as_bool Bdd.mk_false.root)
        = some false := by
      show op_and (NodePointer.as_bool A.root) (some false) = some false
      cases h : NodePointer.as_bool A.root with
      | none => rfl
      | some b => cases b <;> rfl
    rw [e]
    rfl
  · simp only [Bdd.or, apply]
    have e : op_or (NodePointer.as_bool A.root) (NodePointer.as_bool Bdd.mk_true.root)
        = some true := by
      show op_or (NodePointer.as_bool A.root) (some true) = some true
      cases h : NodePointer.as_bool A.root with
      | none => rfl
      | some b => cases b <;> rfl
    rw [e]
    rfl
  · intro h
    unfold Bdd.or
    rw [apply_relayout A Bdd.mk_false op_or (by decide) op_or_false_htab fuel]
    exact h
  · intro res h
    exact apply_diag A op_xor false (by decide) (by decide) fuel res h
  · intro res h
    exact apply_diag A op_iff true (by decide) (by decide) fuel res h
  · intro res h
    exact apply_diag A op_imp true (by decide) (by decide) fuel res h

/-- Witness for C7 at a canonically laid out literal `Bdd` with fuel 30:
the layout hypothesis holds and all seven laws evaluate. -/
theorem identity_annihilator_laws_witness :
    relayout (litVar 2 true) 30 = .ok (litVar 2 true) ∧
    Bdd.and (litVar 2 true) Bdd.mk_true 30 = .ok (litVar 2 true) ∧
    Bdd.and (litVar 2 true) Bdd.mk_false 30 = .ok Bdd.mk_false ∧
    Bdd.or (litVar 2 true) Bdd.mk_true 30 = .ok Bdd.mk_true ∧
    Bdd.or (litVar 2 true) Bdd.mk_false 30 = .ok (litVar 2 true) ∧
    (∃ res, Bdd.xor (litVar 2 true) (litVar 2 true) 30 = .ok res ∧ res = Bdd.mk_false) ∧
    (∃ res, Bdd.iff (litVar 2 true) (litVar 2 true) 30 = .ok res ∧ res = Bdd.mk_true) ∧
    (∃ res, Bdd.imp (litVar 2 true) (litVar 2 true) 30 = .ok res ∧ res = Bdd.mk_true) := by
  have hcanon : relayout (litVar 2 true) 30 = .ok (litVar 2 true) := by decide
  have hxor : Bdd.xor (litVar 2 true) (litVar 2 true) 30
      = .ok ((Bdd.xor (litVar 2 true) (litVar 2 true) 30).toOption.getD Bdd.mk_true) := by
    decide
  have hiff : Bdd.iff (litVar 2 true) (litVar 2 true) 30
      = .ok ((Bdd.iff (litVar 2 true) (litVar 2 true) 30).toOption.getD Bdd.mk_false) := by
    decide
  have himp : Bdd.imp (litVar 2 true) (litVar 2 true) 30
      = .ok ((Bdd.imp (litVar 2 true) (litVar 2 true) 30).toOption.getD Bdd.mk_false) := by
    decide
  exact ⟨hcanon, (identity_annihilator_laws (litVar 2 true) 30).1 hcanon,
    (identity_annihilator_laws (litVar 2 true) 30).2.1,
    (identity_annihilator_laws (litVar 2 true) 30).2.2.1,
    (identity_annihilator_laws (litVar 2 true) 30).2.2.2.1 hcanon,
    ⟨_, hxor, (identity_annihilator_laws (litVar 2 true) 30).2.2.2.2.1 _ hxor⟩,
    ⟨_, hiff, (identity_annihilator_laws (litVar 2 true) 30).2.2.2.2.2.1 _ hiff⟩,
    ⟨_, himp, (identity_annihilator_laws (litVar 2 true) 30).2.2.2.2.2.2 _ himp⟩⟩

end BddU16
